import Mathlib

/-!
Verification development for the helm-schema repository (pkg/schema/schema.go).

The Go source is shallowly embedded: pure Go functions become Lean functions,
Go structs become Lean structures, in-place mutation becomes explicit state
passing, and fallible Go functions return `Except`.  External library behavior
(the yaml.v3 text parser, the regexp package, the helm-docs comment parser,
the jsonschema compiler and the filesystem) is abstracted into explicitly
documented oracle functions or finite maps; everything written in the
repository itself is translated directly from the source.
-/

namespace HelmSchema

/-! ## JSON values

Model of the values produced by encoding/json.  Numbers are modelled as
integers (no schema field in this code base serializes a non-integral
number; float defaults are kept as their literal text, see `CastVal`). -/

inductive Json where
  | null
  | bool (b : Bool)
  | num (n : Int)
  | str (s : String)
  | arr (xs : List Json)
  | obj (fields : List (String × Json))

/-- Values produced by `castNodeValueByType` (Go `any`): the default value
attached to a schema node.  A parsed float is kept as its literal text so the
model stays exact. -/
inductive CastVal where
  | boolVal (b : Bool)
  | intVal (n : Int)
  | strVal (s : String)
  | floatVal (lit : String)
  deriving DecidableEq

/-! ## YAML nodes

Model of gopkg.in/yaml.v3 `yaml.Node`.  `tag` holds the resolved short tag
(the Go code reads both `Tag` and `ShortTag()`; for resolved nodes they
agree).  `aliasT` models the `Alias` target pointer of an alias node. -/

inductive YKind where
  | document
  | mapping
  | sequence
  | scalar
  | aliasNode
  deriving DecidableEq

inductive YamlNode where
  | mk (kind : YKind) (tag : String) (value : String) (headComment : String)
      (content : List YamlNode) (aliasT : Option YamlNode)

def YamlNode.kind : YamlNode → YKind
  | .mk k _ _ _ _ _ => k

def YamlNode.tag : YamlNode → String
  | .mk _ t _ _ _ _ => t

def YamlNode.value : YamlNode → String
  | .mk _ _ v _ _ _ => v

def YamlNode.headComment : YamlNode → String
  | .mk _ _ _ h _ _ => h

def YamlNode.content : YamlNode → List YamlNode
  | .mk _ _ _ _ c _ => c

def YamlNode.aliasT : YamlNode → Option YamlNode
  | .mk _ _ _ _ _ a => a

/-- Model of yaml.v3 `node.Decode(&s)` for a `string` target: a `!!str`
scalar yields its value, a `!!null` scalar yields the zero value `""`,
anything else (other scalar tags, mappings, sequences) is a decode error. -/
def decodeYamlStr (v : YamlNode) : Except String String :=
  if v.kind = .scalar then
    if v.tag = "!!str" then .ok v.value
    else if v.tag = "!!null" then .ok ""
    else .error "cannot unmarshal node into string"
  else .error "cannot unmarshal node into string"

/-- Model of yaml.v3 `node.Decode(&b)` for a `bool` target. -/
def decodeYamlBool (v : YamlNode) : Except String Bool :=
  if v.kind = .scalar then
    if v.tag = "!!bool" then
      if v.value = "true" ∨ v.value = "True" ∨ v.value = "TRUE" then .ok true
      else if v.value = "false" ∨ v.value = "False" ∨ v.value = "FALSE" then .ok false
      else .error "cannot unmarshal node into bool"
    else if v.tag = "!!null" then .ok false
    else .error "cannot unmarshal node into bool"
  else .error "cannot unmarshal node into bool"

/-! ## Generic helpers from the source (Contains / Index, schema.go 951-965) -/

/-- Embeds `Index` (schema.go): index of the first occurrence of v in s, or -1. -/
def Index {α : Type} [DecidableEq α] : List α → α → Int
  | [], _ => -1
  | x :: xs, v => if v = x then 0 else
      let r := Index xs v
      if r = -1 then -1 else r + 1

/-- Embeds `Contains` (schema.go): whether v is present in s. -/
def Contains {α : Type} [DecidableEq α] (s : List α) (v : α) : Bool :=
  Index s v ≥ 0

theorem Index_neg_one_or_nonneg {α : Type} [DecidableEq α] (l : List α) (v : α) :
    Index l v = -1 ∨ Index l v ≥ 0 := by
  induction l with
  | nil => left; rfl
  | cons x xs ih =>
    by_cases h : v = x
    · right; simp [Index, h]
    · rcases ih with h2 | h2
      · left; simp [Index, h, h2]
      · right; simp only [Index, h, if_false]
        have : Index xs v ≠ -1 := by omega
        simp [this]
        omega

theorem Contains_iff_mem {α : Type} [DecidableEq α] (l : List α) (v : α) :
    Contains l v = true ↔ v ∈ l := by
  induction l with
  | nil => simp [Contains, Index]
  | cons x xs ih =>
    by_cases h : v = x
    · simp [Contains, Index, h]
    · constructor
      · intro hc
        simp only [Contains, Index, h, if_false] at hc
        rcases Index_neg_one_or_nonneg xs v with h2 | h2
        · simp [h2] at hc
        · have : Contains xs v = true := by simp [Contains]; omega
          simp [h, ih.mp this]
      · intro hm
        rcases List.mem_cons.mp hm with h2 | h2
        · exact absurd h2 h
        · have := ih.mpr h2
          simp only [Contains, decide_eq_true_eq] at this ⊢
          simp only [Index, h, if_false]
          rcases Index_neg_one_or_nonneg xs v with h3 | h3
          · omega
          · have : Index xs v ≠ -1 := by omega
            simp [this]
            omega

/-! ## The union-typed value model (schema.go 44-183) -/

/-- Embeds `BoolOrArrayOfString` (schema.go 46-49).  `strings` is an
`Option` to keep Go's distinction between a nil and a non-nil slice. -/
structure BoolOrArrayOfString where
  strings : Option (List String)
  bool : Bool
  deriving DecidableEq

/-- Embeds `NewBoolOrArrayOfString` (schema.go 51-56). -/
def NewBoolOrArrayOfString (arr : List String) (b : Bool) : BoolOrArrayOfString :=
  { strings := some arr, bool := b }

/-- Collects a JSON array of strings; any non-string element is a decode
error. -/
def collectJsonStrs : List Json → Option (List String)
  | [] => some []
  | .str s :: rest => (collectJsonStrs rest).map (s :: ·)
  | _ :: _ => none

/-- Model of `json.Unmarshal(value, &multi)` for a `[]string` target:
`null` succeeds leaving the slice nil, an array of strings succeeds,
everything else fails. -/
def jsonToStrList : Json → Option (Option (List String))
  | .null => some none
  | .arr xs => (collectJsonStrs xs).map some
  | _ => none

/-- Model of `json.Unmarshal(value, &single)` for a `bool` target. -/
def jsonToBool : Json → Option Bool
  | .null => some false
  | .bool b => some b
  | _ => none

/-- Model of `json.Unmarshal(value, &single)` for a `string` target. -/
def jsonToStr : Json → Option String
  | .null => some ""
  | .str s => some s
  | _ => none

/-- Embeds `BoolOrArrayOfString.UnmarshalJSON` (schema.go 58-68).  Note the
source returns nil even when neither decode attempt succeeds. -/
def BoolOrArrayOfString.UnmarshalJSON (s : BoolOrArrayOfString) (value : Json) :
    Except String BoolOrArrayOfString :=
  match jsonToStrList value with
  | some multi => .ok { s with strings := multi }
  | none =>
    match jsonToBool value with
    | some single => .ok { s with bool := single }
    | none => .ok s

/-- Embeds `BoolOrArrayOfString.MarshalJSON` (schema.go 70-75): a nil
strings slice is encoded as the empty JSON array. -/
def BoolOrArrayOfString.MarshalJSON (s : BoolOrArrayOfString) : Json :=
  match s.strings with
  | none => .arr []
  | some l => .arr (l.map .str)

/-- Decodes every element of a sequence with `v.Decode(&typeStr)`,
appending to a slice that starts out nil (schema.go 78-87). -/
def decodeStrSeq : List YamlNode → Except String (List String)
  | [] => .ok []
  | v :: rest => do
    let s ← decodeYamlStr v
    let r ← decodeStrSeq rest
    .ok (s :: r)

/-- Embeds `BoolOrArrayOfString.UnmarshalYAML` (schema.go 77-100). -/
def BoolOrArrayOfString.UnmarshalYAML (s : BoolOrArrayOfString) (value : YamlNode) :
    Except String BoolOrArrayOfString :=
  if value.tag = "!!seq" then do
    let multi ← decodeStrSeq value.content
    .ok { s with strings := if multi.isEmpty then none else some multi }
  else if value.tag = "!!bool" then do
    let single ← decodeYamlBool value
    .ok { s with bool := single }
  else .error "could not unmarshal value to slice of string or bool"

/-- Embeds `StringOrArrayOfString` (schema.go 102). -/
abbrev StringOrArrayOfString := List String

/-- Element decoding of `StringOrArrayOfString.UnmarshalYAML` (schema.go
107-118): a null-tagged element becomes the literal string "null". -/
def decodeTypeSeq : List YamlNode → Except String (List String)
  | [] => .ok []
  | v :: rest =>
    if v.tag = "!!null" then do
      let r ← decodeTypeSeq rest
      .ok ("null" :: r)
    else do
      let s ← decodeYamlStr v
      let r ← decodeTypeSeq rest
      .ok (s :: r)

/-- Embeds `StringOrArrayOfString.UnmarshalYAML` (schema.go 104-129): a
sequence decodes elementwise, anything else decodes as a single string and
becomes a one-element list. -/
def StringOrArrayOfString.UnmarshalYAML (value : YamlNode) :
    Except String StringOrArrayOfString :=
  if value.tag = "!!seq" then
    decodeTypeSeq value.content
  else do
    let single ← decodeYamlStr value
    .ok [single]

/-- Embeds `StringOrArrayOfString.UnmarshalJSON` (schema.go 131-141).  As
with the bool union, the source returns nil when neither shape matches. -/
def StringOrArrayOfString.UnmarshalJSON (s : StringOrArrayOfString) (value : Json) :
    Except String StringOrArrayOfString :=
  match jsonToStrList value with
  | some multi => .ok (multi.getD [])
  | none =>
    match jsonToStr value with
    | some single => .ok [single]
    | none => .ok s

/-- Embeds `StringOrArrayOfString.MarshalJSON` (schema.go 143-148): exactly
one element encodes as the bare scalar, otherwise as a list. -/
def StringOrArrayOfString.MarshalJSON (s : StringOrArrayOfString) : Json :=
  match s with
  | [x] => .str x
  | _ => .arr (s.map .str)

/-- Embeds `StringOrArrayOfString.IsEmpty` (schema.go 167-174). -/
def StringOrArrayOfString.IsEmpty (s : StringOrArrayOfString) : Bool :=
  s.contains "" || s.isEmpty

/-- Embeds `StringOrArrayOfString.Matches` (schema.go 176-183). -/
def StringOrArrayOfString.Matches (s : StringOrArrayOfString) (typeString : String) : Bool :=
  s.contains typeString

/-! ## The Schema entity (schema.go 214-254)

The struct is recursive, so it is modelled as a nested inductive: `SchemaF`
is the record of fields with the child-schema type abstracted, and `Schema`
ties the knot.  Field order and the nil-ability of every field follow the Go
struct: `*Schema` and nil-able maps become `Option`, `SchemaOrBool`
(an `interface` value) becomes `SchemaOrBoolF`, the `CustomAnnotations`
map becomes an association list. -/

inductive SchemaOrBoolF (σ : Type) where
  | null
  | boolVal (b : Bool)
  | schemaVal (s : σ)
  | rawMap

structure SchemaF (σ : Type) where
  additionalProperties : SchemaOrBoolF σ
  default : Option CastVal
  thenS : Option σ
  patternProperties : Option (List (String × σ))
  properties : Option (List (String × σ))
  ifS : Option σ
  minimum : Option Int
  multipleOf : Option Int
  exclusiveMaximum : Option Int
  items : Option σ
  exclusiveMinimum : Option Int
  maximum : Option Int
  elseS : Option σ
  pattern : String
  const : Option CastVal
  ref : String
  schemaField : String
  id : String
  format : String
  description : String
  title : String
  type : StringOrArrayOfString
  anyOf : List σ
  allOf : List σ
  oneOf : List σ
  notS : Option σ
  examples : List String
  enum : Option (List String)
  hasData : Bool
  deprecated : Bool
  readOnly : Bool
  writeOnly : Bool
  required : BoolOrArrayOfString
  customAnnotations : List (String × Json)
  minLength : Option Int
  maxLength : Option Int
  minItems : Option Int
  maxItems : Option Int

inductive Schema where
  | mk (c : SchemaF Schema)

def Schema.core : Schema → SchemaF Schema
  | .mk c => c

/-- The zero value of the Go `Schema` struct. -/
def emptySF : SchemaF Schema where
  additionalProperties := .null
  default := none
  thenS := none
  patternProperties := none
  properties := none
  ifS := none
  minimum := none
  multipleOf := none
  exclusiveMaximum := none
  items := none
  exclusiveMinimum := none
  maximum := none
  elseS := none
  pattern := ""
  const := none
  ref := ""
  schemaField := ""
  id := ""
  format := ""
  description := ""
  title := ""
  type := []
  anyOf := []
  allOf := []
  oneOf := []
  notS := none
  examples := []
  enum := none
  hasData := false
  deprecated := false
  readOnly := false
  writeOnly := false
  required := { strings := none, bool := false }
  customAnnotations := []
  minLength := none
  maxLength := none
  minItems := none
  maxItems := none

def emptySchema : Schema := .mk emptySF

/-- Embeds `NewSchema` (schema.go 256-265). -/
def NewSchema (schemaType : String) : Schema :=
  if schemaType = "" then emptySchema
  else .mk { emptySF with
    type := [schemaType]
    required := NewBoolOrArrayOfString [] false }

/-- Embeds `Schema.Set` (schema.go 322-325). -/
def Schema.Set : Schema → Schema
  | .mk c => .mk { c with hasData := true }

/-! ## The validator (schema.go 376-493)

Each failing check of `Schema.Validate` returns a distinct `fmt.Errorf` /
`errors.New` value; the model identifies them by constructor, in source
order. -/

inductive SchemaError where
  | unsupportedType
  | patternWrongType
  | formatWrongType
  | minLengthGreaterMaxLength
  | formatAndPattern
  | itemsWrongType
  | minMaxItemsWrongType
  | minItemsGreaterMaxItems
  | constWithType
  | enumWithType
  | unsupportedFormat
  | minimumWrongType
  | maximumWrongType
  | exclusiveMinimumWrongType
  | exclusiveMaximumWrongType
  | multipleOfWrongType
  | multipleOfNotPositive
  | minimumAndExclusiveMinimum
  | maximumAndExclusiveMaximum
  deriving DecidableEq

/-- The recognized primitive type names (schema.go 152-162). -/
def isRecognizedTypeName (t : String) : Bool :=
  t = "object" ∨ t = "string" ∨ t = "integer" ∨ t = "number" ∨
  t = "array" ∨ t = "null" ∨ t = "boolean"

/-- Embeds `StringOrArrayOfString.Validate` (schema.go 150-165): every
element must be empty or a recognized type name. -/
def StringOrArrayOfString.Validate (s : StringOrArrayOfString) :
    Except SchemaError Unit :=
  if s.all (fun t => t = "" ∨ isRecognizedTypeName t)
  then .ok () else .error .unsupportedType

/-- Returns the given error when the condition holds (one `if cond return
err` step of `Schema.Validate`). -/
def failIf (cond : Bool) (e : SchemaError) : Except SchemaError Unit :=
  if cond then .error e else .ok ()

/-- A pair of optional ints where both are present and the first exceeds
the second (the `*a > *b` comparisons of `Schema.Validate`). -/
def bothAndGt : Option Int → Option Int → Bool
  | some a, some b => a > b
  | _, _ => false

/-- The recognized format names (schema.go 445-465). -/
def isSupportedFormat (f : String) : Bool :=
  f = "date-time" ∨ f = "time" ∨ f = "date" ∨ f = "duration" ∨ f = "email" ∨
  f = "idn-email" ∨ f = "hostname" ∨ f = "idn-hostname" ∨ f = "ipv4" ∨
  f = "ipv6" ∨ f = "uuid" ∨ f = "uri" ∨ f = "uri-reference" ∨ f = "iri" ∨
  f = "iri-reference" ∨ f = "uri-template" ∨ f = "json-pointer" ∨
  f = "relative-json-pointer" ∨ f = "regex"

/-- A numeric keyword is present while type is non-empty and neither
number nor integer (schema.go 468-482). -/
def numericKeywordWrongType (kw : Option Int) (ty : StringOrArrayOfString) : Bool :=
  kw.isSome && !ty.IsEmpty && !ty.Matches "number" && !ty.Matches "integer"

/-- Condition of the `*s.MultipleOf <= 0` check (schema.go 483-485). -/
def multipleOfNonPositive : Option Int → Bool
  | some m => m ≤ 0
  | none => false

/-- Runs a sequence of already-evaluated checks, returning the first error
(the `if cond return err` cascade shape of `Schema.Validate`; the checks
are pure, so evaluating them eagerly is indistinguishable from the Go
short-circuit). -/
def runChecks : List (Except SchemaError Unit) → Except SchemaError Unit
  | [] => .ok ()
  | .error e :: _ => .error e
  | .ok _ :: rest => runChecks rest

mutual

/-- Embeds `Schema.Validate` (schema.go 376-493), checks in source order.

The leading `s.ToJson()` and `Compiler.AddResource` steps cannot fail in
this model: `ToJson` marshals a well-typed struct and `AddResource` merely
JSON-decodes and stores the produced bytes, which cannot fail on the
well-formed JSON that `ToJson` emits.  The source never calls `Compile`
(the `jsonschema.CompileString` call at schema.go 385 is commented out),
so no meta-schema validation happens in `Validate`. -/
def Schema.Validate (s : Schema) : Except SchemaError Unit :=
  match s with
  | .mk c => runChecks [
    StringOrArrayOfString.Validate c.type,
    failIf (c.pattern ≠ "" && !c.type.IsEmpty && !c.type.Matches "string")
      .patternWrongType,
    failIf (c.format ≠ "" && !c.type.IsEmpty && !c.type.Matches "string")
      .formatWrongType,
    failIf (bothAndGt c.minLength c.maxLength) .minLengthGreaterMaxLength,
    failIf (c.format ≠ "" && c.pattern ≠ "") .formatAndPattern,
    validateItems c.items,
    failIf (c.items.isSome && !c.type.IsEmpty && !c.type.Matches "array")
      .itemsWrongType,
    failIf ((c.minItems.isSome || c.maxItems.isSome) && !c.type.IsEmpty &&
      !c.type.Matches "array") .minMaxItemsWrongType,
    failIf (bothAndGt c.minItems c.maxItems) .minItemsGreaterMaxItems,
    failIf (c.const.isSome && !c.type.IsEmpty) .constWithType,
    failIf (c.enum.isSome && !c.type.IsEmpty) .enumWithType,
    failIf (c.format ≠ "" && !isSupportedFormat c.format) .unsupportedFormat,
    failIf (numericKeywordWrongType c.minimum c.type) .minimumWrongType,
    failIf (numericKeywordWrongType c.maximum c.type) .maximumWrongType,
    failIf (numericKeywordWrongType c.exclusiveMinimum c.type)
      .exclusiveMinimumWrongType,
    failIf (numericKeywordWrongType c.exclusiveMaximum c.type)
      .exclusiveMaximumWrongType,
    failIf (numericKeywordWrongType c.multipleOf c.type) .multipleOfWrongType,
    failIf (multipleOfNonPositive c.multipleOf) .multipleOfNotPositive,
    failIf (c.minimum.isSome && c.exclusiveMinimum.isSome)
      .minimumAndExclusiveMinimum,
    failIf (c.maximum.isSome && c.exclusiveMaximum.isSome)
      .maximumAndExclusiveMaximum]
termination_by sizeOf s
decreasing_by
  cases c
  simp
  omega

/-- The nested-items validation step (schema.go 414-419). -/
def validateItems : Option Schema → Except SchemaError Unit
  | none => .ok ()
  | some it => it.Validate
termination_by o => sizeOf o

end

/-! ## The required-property normalizer (schema.go 556-617) -/

/-- The `Contains(list, x)` call pattern on a possibly-nil string slice. -/
def containsOptStr (req : Option (List String)) (x : String) : Bool :=
  Contains (req.getD []) x

/-- The `append(list, x)` call pattern on a possibly-nil string slice
(appending to nil yields a non-nil slice). -/
def appendOptStr (req : Option (List String)) (x : String) : Option (List String) :=
  some (req.getD [] ++ [x])

mutual

/-- Embeds `FixRequiredProperties` (schema.go 558-617), step order as in the
source: the properties loop (with the type-forcing to "object" when the
properties map is non-nil), then `Then`, `If`, `Else`, `Items`, the
`AdditionalProperties` branch, `AnyOf`, `AllOf`, `OneOf`, `Not`.

The Go function mutates in place and always returns a nil error, so the
model returns the updated schema.  The `AdditionalProperties` branch
(schema.go 588-592) type-asserts the `interface` field to a **value** of
type `Schema` and runs the fix on that copy, which is then discarded;
moreover a YAML-decoded `additionalProperties` object is stored as a
generic map, never as a `Schema` value, so the assertion cannot succeed at
runtime.  Either way the field is left unchanged, which the model mirrors
by not touching `additionalProperties`. -/
def FixRequiredProperties (schema : Schema) : Schema :=
  match schema with
  | .mk c =>
    let s1 := fixPropsStep c.properties c.required.strings c.type
    .mk { c with
      properties := s1.1
      required := { c.required with strings := s1.2.1 }
      type := s1.2.2
      thenS := fixOpt c.thenS
      ifS := fixOpt c.ifS
      elseS := fixOpt c.elseS
      items := fixOpt c.items
      anyOf := fixList c.anyOf
      allOf := fixList c.allOf
      oneOf := fixList c.oneOf
      notS := fixOpt c.notS }
termination_by sizeOf schema
decreasing_by all_goals (cases c; simp; omega)

/-- The `schema.Properties != nil` step of `FixRequiredProperties`
(schema.go 559-570): the properties loop plus the type forcing. -/
def fixPropsStep (props : Option (List (String × Schema)))
    (req : Option (List String)) (ty : StringOrArrayOfString) :
    Option (List (String × Schema)) × Option (List String) × StringOrArrayOfString :=
  match props with
  | none => (none, req, ty)
  | some ps =>
    let res := fixProps req ps
    (some res.1, res.2, if Contains ty "object" then ty else ["object"])
termination_by sizeOf props

/-- The properties loop of `FixRequiredProperties` (schema.go 560-565):
recursively fix each property, then append its name to the parent required
list when its boolean required flag is set and the name is not yet there. -/
def fixProps (req : Option (List String)) :
    List (String × Schema) → List (String × Schema) × Option (List String)
  | [] => ([], req)
  | (propName, propValue) :: rest =>
    let v := FixRequiredProperties propValue
    let req2 := if v.core.required.bool && !containsOptStr req propName
      then appendOptStr req propName else req
    let res := fixProps req2 rest
    ((propName, v) :: res.1, res.2)
termination_by l => sizeOf l

/-- Recursion of `FixRequiredProperties` into an optional child schema. -/
def fixOpt : Option Schema → Option Schema
  | none => none
  | some s => some (FixRequiredProperties s)
termination_by o => sizeOf o

/-- Recursion of `FixRequiredProperties` into a combinator list. -/
def fixList : List Schema → List Schema
  | [] => []
  | x :: xs => FixRequiredProperties x :: fixList xs
termination_by l => sizeOf l

end

/-! ## The annotation parser (schema.go 24-31, 619-653) -/

/-- Embeds the `SchemaPrefix` constant (schema.go 25), the annotation block
delimiter. -/
def schemaBlockMarker : String := "# @schema"

/-- Embeds the `CommentPrefix` constant (schema.go 26). -/
def commentMarker : String := "#"

/-- Character-list prefix test (the computational content of Go
`strings.HasPrefix`), kept structural so that closed instances evaluate. -/
def listIsPre : List Char → List Char → Bool
  | [], _ => true
  | _, [] => false
  | a :: as, b :: bs => a = b && listIsPre as bs

/-- Embeds Go `strings.HasPrefix`. -/
def goStartsWith (s pre : String) : Bool :=
  listIsPre pre.data s.data

/-- Embeds Go `strings.TrimPrefix`: drop the prefix when present, otherwise
return the string unchanged. -/
def goTrimPre (s pre : String) : String :=
  if goStartsWith s pre then String.mk (s.data.drop pre.data.length) else s

/-- Splits a character list on a separator character; like Go
`strings.Split`, the result always has one part more than the number of
separators. -/
def splitCharList (sep : Char) : List Char → List (List Char)
  | [] => [[]]
  | ch :: rest =>
    if ch = sep then [] :: splitCharList sep rest
    else
      match splitCharList sep rest with
      | t :: ts => (ch :: t) :: ts
      | [] => [[ch]]

/-- Embeds Go `strings.Split` for a one-character separator. -/
def goSplit (s : String) (sep : Char) : List String :=
  (splitCharList sep s.data).map String.mk

/-- Strips one trailing carriage return (the `dropCR` step of
`bufio.ScanLines`). -/
def dropTrailingCR (l : List Char) : List Char :=
  match l.getLast? with
  | some ch => if ch = '\r' then l.dropLast else l
  | none => l

/-- Model of the lines delivered by `bufio.Scanner` with the default
`ScanLines` split: split on newline, drop the empty token after a trailing
newline, strip one trailing carriage return per line; empty input yields no
lines. -/
def goScanLines (s : String) : List String :=
  let parts := splitCharList '\n' s.data
  let parts := if parts.getLast? = some [] then parts.dropLast else parts
  parts.map (fun cs => String.mk (dropTrailingCR cs))

/-- The trimming applied to a line collected inside the annotation block
(schema.go 634-635): strip the comment marker twice, then one space. -/
def rawTrim (line : String) : String :=
  goTrimPre (goTrimPre (goTrimPre line commentMarker) commentMarker) " "

/-- The trimming applied to a description line (schema.go 638): strip the
comment marker once, then one space. -/
def descTrim (line : String) : String :=
  goTrimPre (goTrimPre line commentMarker) " "

/-- One pass of the scanner loop of `GetSchemaFromComment` (schema.go
627-640), carried state: the inside-annotation-block flag and the two
accumulators.  Returns (rawSchema lines, description lines, final flag). -/
def scanGo : List String → Bool → List String → List String →
    List String × List String × Bool
  | [], inside, raw, desc => (raw.reverse, desc.reverse, inside)
  | line :: rest, inside, raw, desc =>
    if goStartsWith line schemaBlockMarker then
      scanGo rest (!inside) raw desc
    else if inside then
      scanGo rest inside (rawTrim line :: raw) desc
    else
      scanGo rest inside raw (descTrim line :: desc)

/-- The scanner stage of `GetSchemaFromComment`: collected rawSchema lines,
description lines and the final inside-block flag. -/
def scanComment (comment : String) : List String × List String × Bool :=
  scanGo (goScanLines comment) false [] []

/-- Embeds Go `strings.Join` with the given separator. -/
def goJoin (sep : String) : List String → String
  | [] => ""
  | [x] => x
  | x :: rest => x ++ sep ++ goJoin sep rest

/-- Embeds `GetSchemaFromComment` (schema.go 620-653).

`decodeAnn` is the oracle for `yaml.Unmarshal` of the joined annotation
text into a zero `Schema` (the yaml.v3 text parser plus the struct decode
of `Schema.UnmarshalYAML`); it returns the decoded schema or a decode
error.  The `result.Set()` calls inside the loop make `hasData` true
exactly when at least one line was collected inside the block, and the
`HasData` field carries a yaml:"-" tag, so the decode never overwrites it;
the model forces the flag accordingly.  An empty collected text is the
degenerate `yaml.Unmarshal` of no document, which leaves the zero schema
untouched. -/
def GetSchemaFromComment (decodeAnn : String → Except String Schema)
    (comment : String) : Except String (Schema × String) :=
  let scanned := scanComment comment
  if scanned.2.2 then
    .error ("unclosed schema block found in comment: " ++ comment)
  else
    let descStr := goJoin "\n" scanned.2.1
    if scanned.1.isEmpty then .ok (emptySchema, descStr)
    else
      match decodeAnn (goJoin "\n" scanned.1) with
      | .error e => .error e
      | .ok s => .ok (s.Set, descStr)

/-! ## Synthesis helpers (schema.go 534-554, 901-949) -/

/-- Embeds `typeFromTag` (schema.go 534-554). -/
def typeFromTag (tag : String) : Except String (List String) :=
  if tag = "!!null" then .ok ["null"]
  else if tag = "!!bool" then .ok ["boolean"]
  else if tag = "!!str" then .ok ["string"]
  else if tag = "!!int" then .ok ["integer"]
  else if tag = "!!float" then .ok ["number"]
  else if tag = "!!timestamp" then .ok ["string"]
  else if tag = "!!seq" then .ok ["array"]
  else if tag = "!!map" then .ok ["object"]
  else .error ("unsupported yaml tag found: " ++ tag)

/-- Embeds `helmDocsTypeToSchemaType` (schema.go 901-918). -/
def helmDocsTypeToSchemaType (helmDocsType : String) : Except String String :=
  if helmDocsType = "int" then .ok "integer"
  else if helmDocsType = "bool" then .ok "boolean"
  else if helmDocsType = "float" then .ok "number"
  else if helmDocsType = "list" then .ok "array"
  else if helmDocsType = "map" then .ok "object"
  else if helmDocsType = "string" ∨ helmDocsType = "object" then .ok helmDocsType
  else .error ("cant translate helm-docs type " ++ helmDocsType ++ " to helm-schema type")

/-- Model of `strconv.Atoi`: an optional sign followed by at least one
digit, no other characters. -/
def goAtoi (s : String) : Option Int := s.toInt?

/-- A signed digit run (helper for the `strconv.ParseFloat` model). -/
def signedDigitsOk (l : List Char) : Bool :=
  let y := match l with
    | ch :: rest => if ch = '-' ∨ ch = '+' then rest else l
    | [] => l
  !y.isEmpty && y.all Char.isDigit

/-- A decimal mantissa (helper for the `strconv.ParseFloat` model). -/
def mantissaOk (l : List Char) : Bool :=
  match splitCharList '.' l with
  | [a] => !a.isEmpty && a.all Char.isDigit
  | [a, b] => (!a.isEmpty ∨ !b.isEmpty) && a.all Char.isDigit && b.all Char.isDigit
  | _ => false

/-- Model of the success condition of `strconv.ParseFloat`: a simple
decimal or scientific literal.  (The rarely used special forms such as
hexadecimal floats or infinities are not modelled; no claim depends on
them.) -/
def goParseFloatOk (s : String) : Bool :=
  let body := match s.data with
    | ch :: rest => if ch = '-' ∨ ch = '+' then rest else s.data
    | [] => s.data
  let parts := splitCharList 'e' body
  let parts := if parts.length = 1 then splitCharList 'E' body else parts
  match parts with
  | [mant] => mantissaOk mant
  | [mant, ex] => mantissaOk mant && signedDigitsOk ex
  | _ => false

/-- The loop of `castNodeValueByType` over the field types (schema.go
926-946): the first successful boolean/integer/number parse wins. -/
def castLoop (rawValue : String) : List String → CastVal
  | [] => .strVal rawValue
  | t :: rest =>
    if t = "boolean" ∧ rawValue = "true" then .boolVal true
    else if t = "boolean" ∧ rawValue = "false" then .boolVal false
    else if t = "integer" then
      match goAtoi rawValue with
      | some v => .intVal v
      | none => castLoop rawValue rest
    else if t = "number" ∧ goParseFloatOk rawValue then .floatVal rawValue
    else castLoop rawValue rest

/-- Embeds `castNodeValueByType` (schema.go 920-949): when the field has no
type the raw string is returned, otherwise the loop over the types runs and
falls back to the raw string. -/
def castNodeValueByType (rawValue : String) (fieldType : StringOrArrayOfString) :
    CastVal :=
  if fieldType.isEmpty then .strVal rawValue
  else castLoop rawValue fieldType

/-! ## The tree synthesizer (schema.go 495-532, 655-899) -/

/-- Embeds `SkipAutoGenerationConfig` (schema.go 497-499). -/
structure SkipAutoGenerationConfig where
  title : Bool
  description : Bool
  required : Bool
  default : Bool
  additionalProperties : Bool

/-- The fields of helm-docs `helm.ParseComment` output used by the
synthesizer (an external library). -/
structure HelmDocsValue where
  default : String
  description : String
  valueType : String

/-- External behavior the synthesizer depends on, fixed for one run.

The first four fields are oracles for external libraries: `decodeAnn` is
`yaml.Unmarshal` of the annotation text into a zero `Schema` (yaml.v3 text
parsing plus the struct decoding of `Schema.UnmarshalYAML`);
`trimLeadingParagraphs` is the `leadingCommentsRemover` regexp replacement
(schema.go 714-715); `parseHelmDocsComment` is helm-docs
`helm.ParseComment` (schema.go 723); `stripHelmDocsArtifacts` is the
composition of the `helmDocsTagsRemover` and `prefixRemover` regexp
replacements (schema.go 746-750).

`resolveRelFile` is Modelled from the spec: it stands for
`util.IsRelativeFile` (pkg/util, not part of the sources here) together
with the filesystem read and JSON decode of the referenced file
(schema.go 760-793).  `resolveRelFile valuesPath filePart = none` means the
file-path part does not exist as a file relative to the values file, in
which case resolution is abandoned for the key (logged, not fatal);
otherwise the returned function evaluates the optional json-pointer part
against the decoded document, where an error models the fatal decode or
pointer-miss conditions. -/
structure SynthEnv where
  decodeAnn : String → Except String Schema
  trimLeadingParagraphs : String → String
  parseHelmDocsComment : String → HelmDocsValue
  stripHelmDocsArtifacts : String → String
  resolveRelFile : String → String → Option (Option String → Except String Schema)

/-- The per-run arguments of `YamlToSchema` other than the node and the
parent required list (schema.go 656-663), bundled. -/
structure SynthArgs where
  env : SynthEnv
  valuesPath : String
  keepFullComment : Bool
  helmDocsCompatibilityMode : Bool
  dontRemoveHelmDocsPrefix : Bool
  skipAutoGeneration : SkipAutoGenerationConfig

/-- Whether an `additionalProperties` interface value is Go nil. -/
def isNullAddProps : SchemaOrBoolF Schema → Bool
  | .null => true
  | _ => false

/-- Map assignment `m[k] = v` on the association-list model of
`map[string]*Schema`: replace the binding if the key exists, else append. -/
def assocSet (l : List (String × Schema)) (k : String) (v : Schema) :
    List (String × Schema) :=
  match l with
  | [] => [(k, v)]
  | (k2, v2) :: rest => if k2 = k then (k, v) :: rest else (k2, v2) :: assocSet rest k v

/-- Map assignment including the `if schema.Properties == nil` make step
(schema.go 891-894). -/
def assocSetOpt (props : Option (List (String × Schema))) (k : String) (v : Schema) :
    Option (List (String × Schema)) :=
  some (assocSet (props.getD []) k v)

/-- Appends every gathered item-required name onto the item schema required
list, without deduplication (schema.go 872-874). -/
def appendAllStr (req : Option (List String)) : List String → Option (List String)
  | [] => req
  | x :: xs => appendAllStr (appendOptStr req x) xs

/-- The helm-docs compatibility merge (schema.go 722-741): a non-empty
legacy default, description or type overwrites the schema field and marks
the node as having data; an unknown legacy type name is logged and the
field is left unset. -/
def applyHelmDocsCompat (env : SynthEnv) (headComment : String) (s : Schema) : Schema :=
  let hd := env.parseHelmDocsComment headComment
  let s1 := if hd.default ≠ "" then
      Schema.mk { s.core with hasData := true, default := some (.strVal hd.default) }
    else s
  let s2 := if hd.description ≠ "" then
      Schema.mk { s1.core with hasData := true, description := hd.description }
    else s1
  if hd.valueType ≠ "" then
    match helmDocsTypeToSchemaType hd.valueType with
    | .error _ => s2
    | .ok t => Schema.mk { s2.core with hasData := true, type := [t] }
  else s2

/-- The reference-resolution step (schema.go 753-798): a `$ref` beginning
with "#" is passed through unresolved; otherwise the value is split on "#"
into a file part and an optional pointer part.  A missing file leaves the
reference unresolved (log.Debug); a present file whose read, decode or
pointer evaluation fails is fatal (log.Fatal); a successful resolution
replaces the schema entirely and marks it as having data. -/
def resolveRefStep (env : SynthEnv) (valuesPath : String) (s : Schema) :
    Except String Schema :=
  if s.core.ref = "" then .ok s
  else if goStartsWith s.core.ref "#" then .ok s
  else
    let refParts := goSplit s.core.ref '#' 
    match env.resolveRelFile valuesPath (refParts.headD "") with
    | none => .ok s
    | some readRef =>
      match readRef (if refParts.length > 1 then some (refParts.getD 1 "") else none) with
      | .error e => .error e
      | .ok rel => .ok (Schema.mk { rel.core with hasData := true })

/-- The validate-or-infer step (schema.go 800-814): a node with explicit
annotation data must pass `Schema.Validate` (a failure is fatal); a purely
inferred node gets its type from the value node tag (an unsupported tag is
fatal). -/
def validateOrInfer (s : Schema) (valueNode : YamlNode) (key : String) :
    Except String Schema :=
  if s.core.hasData then
    match s.Validate with
    | .error _ => .error ("Error while validating jsonschema of key " ++ key)
    | .ok _ => .ok s
  else
    match typeFromTag valueNode.tag with
    | .error e => .error e
    | .ok t => .ok (Schema.mk { s.core with type := t })

theorem one_le_sizeOf_yaml (n : YamlNode) : 1 ≤ sizeOf n := by
  cases n; simp; omega

theorem one_le_sizeOf_list {α : Type} [SizeOf α] (l : List α) : 1 ≤ sizeOf l := by
  cases l
  · simp
  · simp; omega

mutual

/-- Embeds `YamlToSchema` (schema.go 656-899).  The Go function mutates the
caller-owned `parentRequiredProperties` slice through a pointer; the model
takes the current list and returns the updated list alongside the produced
schema.  Kinds other than document and mapping fall through the switch and
return the fresh `NewSchema("object")`. -/
def YamlToSchema (a : SynthArgs) :
    YamlNode → Option (List String) → Except String (Schema × Option (List String))
  | .mk kind _ _ _ content _, parentReq =>
    if kind = .document then synthDocContent a content parentReq
    else if kind = .mapping then do
      let r ← processPairs a content none parentReq
      .ok (Schema.mk { (NewSchema "object").core with properties := r.1 }, r.2)
    else .ok (NewSchema "object", parentReq)
termination_by node _ => 4 * sizeOf node

/-- The document branch (schema.go 667-702): exactly one child is required
(anything else is fatal); the child mapping synthesis runs against the
fresh document schema required list, the dialect identifier is set, and
top-level `additionalProperties` is forced to false unless suppressed.
The commented-out auto-insertion of a `global` property (schema.go
683-698) is dead code and has no effect. -/
def synthDocContent (a : SynthArgs) :
    List YamlNode → Option (List String) → Except String (Schema × Option (List String))
  | [child], parentReq => do
    let res ← YamlToSchema a child (some [])
    let base := NewSchema "object"
    let s := Schema.mk { base.core with
      schemaField := "http://json-schema.org/draft-07/schema#"
      properties := res.1.core.properties
      required := { base.core.required with strings := res.2 } }
    let s := if a.skipAutoGeneration.additionalProperties = false then
        Schema.mk { s.core with additionalProperties := .boolVal false }
      else s
    .ok (s, parentReq)
  | _, _ => .error "Strange yaml document found"
termination_by content _ => 4 * sizeOf content

/-- The mapping loop (schema.go 704-895): content is consumed in key/value
pairs; an odd trailing node models the out-of-range panic of the Go
indexing. -/
def processPairs (a : SynthArgs) :
    List YamlNode → Option (List (String × Schema)) → Option (List String) →
    Except String (Option (List (String × Schema)) × Option (List String))
  | [], props, req => .ok (props, req)
  | [_], _, _ => .error "index out of range in mapping content"
  | keyNode :: valueNode :: rest, props, req => do
    let r ← processPair a keyNode valueNode req
    processPairs a rest (assocSetOpt props keyNode.value r.1) r.2
termination_by l _ _ => 4 * sizeOf l
decreasing_by
  · have := one_le_sizeOf_list rest
    simp
    omega
  · simp
    omega

/-- The alias step of one key/value pair (schema.go 708-710): an alias
value node is replaced by its target before processing (a nil target would
crash the Go process, modelled as an error). -/
def processPair (a : SynthArgs) (keyNode : YamlNode) :
    YamlNode → Option (List String) → Except String (Schema × Option (List String))
  | .mk kind tag value hc content aliasT, req =>
    if kind = .aliasNode then
      match aliasT with
      | some t => processPairResolved a keyNode t req
      | none => .error "nil alias target"
    else processPairResolved a keyNode (.mk kind tag value hc content aliasT) req
termination_by v _ => 4 * (sizeOf keyNode + sizeOf v) + 3
decreasing_by
  all_goals try simp
  all_goals try omega

/-- One key/value pair of the mapping loop after alias resolution
(schema.go 712-894), steps in source order: comment trimming, annotation
parsing (a parse failure is fatal), the helm-docs compatibility merge,
description stripping, reference resolution, validation or type inference,
then — only when no `$ref` remains — the parent-required propagation, the
`additionalProperties`/title/description/default defaulting, and the
recursion into a mapping value or a sequence value (the latter followed by
`FixRequiredProperties` on the key schema). -/
def processPairResolved (a : SynthArgs) (keyNode valueNode : YamlNode)
    (req : Option (List String)) : Except String (Schema × Option (List String)) := do
  let comment := if a.keepFullComment then keyNode.headComment
    else a.env.trimLeadingParagraphs keyNode.headComment
  let parsed ← match GetSchemaFromComment a.env.decodeAnn comment with
    | .error _ => .error ("Error while parsing comment of key " ++ keyNode.value)
    | .ok r => pure r
  let ks1 := if a.helmDocsCompatibilityMode then
      applyHelmDocsCompat a.env keyNode.headComment parsed.1
    else parsed.1
  let description := if a.dontRemoveHelmDocsPrefix = false then
      a.env.stripHelmDocsArtifacts parsed.2
    else parsed.2
  let ks2 ← resolveRefStep a.env a.valuesPath ks1
  let ks3 ← validateOrInfer ks2 valueNode keyNode.value
  processPairTail a keyNode valueNode description ks3 req
termination_by 4 * (sizeOf keyNode + sizeOf valueNode) + 2
decreasing_by
  omega

/-- The `keyNodeSchema.Ref == ""` block of one key/value pair (schema.go
816-894): the parent-required propagation and (via `processPairSchema`)
the defaulting and recursion steps; with a remaining `$ref` the schema and
the parent required list pass through untouched.  The schema computation
does not involve the parent required list, so the two are factored. -/
def processPairTail (a : SynthArgs) (keyNode valueNode : YamlNode)
    (description : String) (ks3 : Schema) (req : Option (List String)) :
    Except String (Schema × Option (List String)) :=
  if ks3.core.ref = "" then
    let req2 := if ks3.core.required.bool ∨
        ((ks3.core.required.strings.getD []).length = 0 ∧
          a.skipAutoGeneration.required = false ∧ ks3.core.hasData = false) then
        (if containsOptStr req keyNode.value then req else appendOptStr req keyNode.value)
      else req
    match processPairSchema a keyNode valueNode description ks3 with
    | .error e => .error e
    | .ok s => .ok (s, req2)
  else .ok (ks3, req)
termination_by 4 * (sizeOf keyNode + sizeOf valueNode) + 1
decreasing_by
  omega

/-- The schema side of the `keyNodeSchema.Ref == ""` block (schema.go
826-894): the `additionalProperties`, title, description and default
defaulting, then the recursion into a mapping value (whose synthesized
properties and gathered required names land on the key schema) or into a
sequence value (whose alternatives become `items.anyOf`, followed by
`FixRequiredProperties` on the key schema). -/
def processPairSchema (a : SynthArgs) (keyNode valueNode : YamlNode)
    (description : String) (ks3 : Schema) : Except String Schema :=
  let ks4 := if a.skipAutoGeneration.additionalProperties = false ∧
      valueNode.kind = .mapping ∧
      (ks3.core.hasData = false ∨ isNullAddProps ks3.core.additionalProperties) then
      Schema.mk { ks3.core with additionalProperties := .boolVal false }
    else ks3
  let ks5 := if ks4.core.title = "" ∧ a.skipAutoGeneration.title = false then
      Schema.mk { ks4.core with title := keyNode.value }
    else ks4
  let ks6 := if ks5.core.description = "" ∧ a.skipAutoGeneration.description = false then
      Schema.mk { ks5.core with description := description }
    else ks5
  let ks7 := if a.skipAutoGeneration.default = false ∧ ks6.core.default = none ∧
      valueNode.kind = .scalar then
      Schema.mk { ks6.core with
        default := some (castNodeValueByType valueNode.value ks6.core.type) }
    else ks6
  if valueNode.kind = .mapping ∧ ks7.core.properties.isNone then do
    let res ← YamlToSchema a valueNode ks7.core.required.strings
    .ok (Schema.mk { ks7.core with
      properties := res.1.core.properties
      required := { ks7.core.required with strings := res.2 } })
  else if valueNode.kind = .sequence ∧ ks7.core.items.isNone then do
    let anyOfList ← synthSeqItems a valueNode.content
    let seqSchema := Schema.mk { (NewSchema "").core with anyOf := anyOfList }
    let ks8 := Schema.mk { ks7.core with items := some seqSchema }
    .ok (FixRequiredProperties ks8)
  else .ok ks7
termination_by 4 * (sizeOf keyNode + sizeOf valueNode)
decreasing_by
  · have := one_le_sizeOf_yaml keyNode
    omega
  · have h := one_le_sizeOf_yaml keyNode
    cases valueNode
    simp [YamlNode.content]
    omega

/-- The sequence-items loop (schema.go 861-882), producing the `anyOf`
alternatives in element order. -/
def synthSeqItems (a : SynthArgs) : List YamlNode → Except String (List Schema)
  | [] => .ok []
  | itemNode :: rest => do
    let s ← synthSeqItem a itemNode
    let r ← synthSeqItems a rest
    .ok (s :: r)
termination_by l => 4 * sizeOf l
decreasing_by
  · have := one_le_sizeOf_list rest
    simp
    omega
  · simp
    try omega

/-- One sequence element (schema.go 862-881): a scalar contributes a fresh
single-type schema by inferred tag (an unsupported tag is fatal); any
other node is synthesized recursively, its gathered required names are
appended to its own required list, and its `additionalProperties` is
defaulted like a mapping value. -/
def synthSeqItem (a : SynthArgs) (itemNode : YamlNode) : Except String Schema :=
  if itemNode.kind = .scalar then
    match typeFromTag itemNode.tag with
    | .error e => .error e
    | .ok t => .ok (NewSchema (t.headD ""))
  else do
    let res ← YamlToSchema a itemNode (some [])
    let is1 := Schema.mk { res.1.core with required := { res.1.core.required with
      strings := appendAllStr res.1.core.required.strings (res.2.getD []) } }
    let is2 := if a.skipAutoGeneration.additionalProperties = false ∧
        itemNode.kind = .mapping ∧
        (is1.core.hasData = false ∨ isNullAddProps is1.core.additionalProperties) then
        Schema.mk { is1.core with additionalProperties := .boolVal false }
      else is1
    .ok is2
termination_by 4 * sizeOf itemNode + 1

end

/-! ## Claim theorems -/

theorem runChecks_ok_all (l : List (Except SchemaError Unit))
    (h : runChecks l = .ok ()) : ∀ x ∈ l, x = .ok () := by
  induction l with
  | nil => intro x hx; simp at hx
  | cons y rest ih =>
    intro x hx
    match y with
    | .error e => simp [runChecks] at h
    | .ok () =>
      rcases List.mem_cons.mp hx with h2 | h2
      · rw [h2]
      · exact ih (by simpa [runChecks] using h) x h2

/-- A schema whose properties map is non-empty but whose type is only
"string": the input refuting C1. -/
def schemaPropsNotObject : Schema := .mk { emptySF with
  properties := some [("a", emptySchema)]
  type := ["string"] }

/-- C1 counterexample: a schema with a non-empty properties map whose type
does not include "object" passes `Schema.Validate` without any error, so
Validate does not check this invariant. -/
theorem C1_counterexample :
    schemaPropsNotObject.core.properties = some [("a", emptySchema)] ∧
    Contains schemaPropsNotObject.core.type "object" = false ∧
    schemaPropsNotObject.Validate = .ok () := by
  refine ⟨rfl, by decide, ?_⟩
  simp [schemaPropsNotObject, Schema.Validate, StringOrArrayOfString.Validate,
    isRecognizedTypeName, StringOrArrayOfString.IsEmpty,
    StringOrArrayOfString.Matches, failIf, bothAndGt, numericKeywordWrongType,
    multipleOfNonPositive, validateItems, emptySF, isSupportedFormat, runChecks]

/-- C1 (amended): the properties/type invariant is not checked by
`Schema.Validate`; it is instead enforced by `FixRequiredProperties`, which
rewrites the type to "object" whenever the properties map is non-nil and
the type does not already include "object". -/
theorem C1_amended (s : Schema) (ps : List (String × Schema))
    (h : s.core.properties = some ps) :
    Contains (FixRequiredProperties s).core.type "object" = true := by
  cases s with
  | mk c =>
    simp only [Schema.core] at h
    rw [FixRequiredProperties]
    simp only [Schema.core]
    rw [h]
    simp only [fixPropsStep]
    by_cases h2 : Contains c.type "object" = true
    · simp [h2]
    · simp only [Bool.not_eq_true] at h2
      simp [h2]
      decide

/-- C1 amended witness at the concrete counterexample schema. -/
theorem C1_amended_witness :
    schemaPropsNotObject.core.properties = some [("a", emptySchema)] ∧
    Contains (FixRequiredProperties schemaPropsNotObject).core.type "object" = true :=
  ⟨rfl, C1_amended schemaPropsNotObject [("a", emptySchema)] rfl⟩

/-- An optional integer that is present and negative (violating the
nonNegativeInteger shape of the meta-schema). -/
def negIntOpt : Option Int → Bool
  | some n => n < 0
  | none => false

/-- A list of strings holding some entry twice (violating a uniqueItems
constraint of the meta-schema). -/
def hasDupStr : List String → Bool
  | [] => false
  | x :: xs => Contains xs x || hasDupStr xs

/-- Modelled from the spec: the structural sanity check against a general
JSON-Schema meta-validator that the spec attributes to `Validate`:
violation of the draft-07 meta-schema by the JSON-encoded form of a schema
of this typed model.  The meta-schema constraints the model can falsify
are: `multipleOf` must be strictly positive (`exclusiveMinimum: 0`), the
four length/items bounds must be non-negative integers
(`nonNegativeInteger`), `required` must be an array of unique strings
(`uniqueItems: true` of `stringArray`), and every `type` entry must be one
of the seven `simpleTypes` names, without duplicates in the array form
(`uniqueItems: true`; a one-element list is encoded as a bare scalar).
The remaining encoded fields are shape-correct by construction (typed
strings, booleans, integers and schema-valued fields), the
`regex`/`uri-reference` format annotations are not asserted during
compilation, and empty combinator lists are dropped by `omitempty` before
the `schemaArray` `minItems` bound could apply. -/
def violatesMetaSchema (s : Schema) : Bool :=
  multipleOfNonPositive s.core.multipleOf ||
  negIntOpt s.core.minLength || negIntOpt s.core.maxLength ||
  negIntOpt s.core.minItems || negIntOpt s.core.maxItems ||
  hasDupStr (s.core.required.strings.getD []) ||
  !s.core.type.all (fun t => isRecognizedTypeName t) ||
  (decide (2 ≤ s.core.type.length) && hasDupStr s.core.type)

/-- A schema violating only the meta-schema: a negative minLength, which
fails the nonNegativeInteger shape but is caught by no custom check. -/
def schemaMinLengthNeg : Schema := .mk { emptySF with minLength := some (-1) }

/-- A schema violating the meta-schema together with an earlier custom
invariant (pattern with type integer). -/
def schemaMetaViolatingPattern : Schema := .mk { emptySF with
  multipleOf := some 0
  pattern := "^a"
  type := ["integer"] }

/-- C2 counterexample: `Schema.Validate` rejects no meta-schema violation
as such.  A schema whose only defect is the meta-schema violation
minLength = -1 passes `Validate` with no error at all; and for a schema
violating the meta-schema (multipleOf = 0) together with an earlier custom
invariant (pattern with type integer), the error returned is that earlier
custom error, so no meta-schema validation runs before the custom
checks. -/
theorem C2_counterexample :
    violatesMetaSchema schemaMinLengthNeg = true ∧
    schemaMinLengthNeg.Validate = .ok () ∧
    violatesMetaSchema schemaMetaViolatingPattern = true ∧
    schemaMetaViolatingPattern.Validate = .error .patternWrongType := by
  refine ⟨by decide, ?_, by decide, ?_⟩ <;>
    simp [schemaMinLengthNeg, schemaMetaViolatingPattern, Schema.Validate,
      StringOrArrayOfString.Validate, isRecognizedTypeName,
      StringOrArrayOfString.IsEmpty, StringOrArrayOfString.Matches, failIf,
      bothAndGt, numericKeywordWrongType, multipleOfNonPositive, validateItems,
      emptySF, isSupportedFormat, runChecks]

/-- C2 (amended): `Validate` performs no meta-schema compilation (the
compile call is commented out in the source and the resource-add step
cannot fail on the JSON that `ToJson` emits), and it does not reject every
meta-schema violation.  Its custom checks overlap the meta-schema exactly
at the multipleOf-strictly-positive constraint: every schema violating
that constraint is rejected with some custom error, in the custom order,
while a schema violating the meta-schema elsewhere can pass `Validate`
untouched (the negative-minLength schema of the counterexample does). -/
theorem C2_amended :
    (∀ s : Schema, multipleOfNonPositive s.core.multipleOf = true →
      ∃ e : SchemaError, s.Validate = .error e) ∧
    (∃ s : Schema, violatesMetaSchema s = true ∧ s.Validate = .ok ()) := by
  refine ⟨?_, ⟨schemaMinLengthNeg, by decide, ?_⟩⟩
  swap
  · simp [schemaMinLengthNeg, Schema.Validate, StringOrArrayOfString.Validate,
      isRecognizedTypeName, StringOrArrayOfString.IsEmpty,
      StringOrArrayOfString.Matches, failIf, bothAndGt,
      numericKeywordWrongType, multipleOfNonPositive, validateItems, emptySF,
      isSupportedFormat, runChecks]
  intro s h
  cases s with
  | mk c =>
    rw [Schema.Validate]
    match hV : runChecks [
      StringOrArrayOfString.Validate c.type,
      failIf (c.pattern ≠ "" && !c.type.IsEmpty && !c.type.Matches "string")
        .patternWrongType,
      failIf (c.format ≠ "" && !c.type.IsEmpty && !c.type.Matches "string")
        .formatWrongType,
      failIf (bothAndGt c.minLength c.maxLength) .minLengthGreaterMaxLength,
      failIf (c.format ≠ "" && c.pattern ≠ "") .formatAndPattern,
      validateItems c.items,
      failIf (c.items.isSome && !c.type.IsEmpty && !c.type.Matches "array")
        .itemsWrongType,
      failIf ((c.minItems.isSome || c.maxItems.isSome) && !c.type.IsEmpty &&
        !c.type.Matches "array") .minMaxItemsWrongType,
      failIf (bothAndGt c.minItems c.maxItems) .minItemsGreaterMaxItems,
      failIf (c.const.isSome && !c.type.IsEmpty) .constWithType,
      failIf (c.enum.isSome && !c.type.IsEmpty) .enumWithType,
      failIf (c.format ≠ "" && !isSupportedFormat c.format) .unsupportedFormat,
      failIf (numericKeywordWrongType c.minimum c.type) .minimumWrongType,
      failIf (numericKeywordWrongType c.maximum c.type) .maximumWrongType,
      failIf (numericKeywordWrongType c.exclusiveMinimum c.type)
        .exclusiveMinimumWrongType,
      failIf (numericKeywordWrongType c.exclusiveMaximum c.type)
        .exclusiveMaximumWrongType,
      failIf (numericKeywordWrongType c.multipleOf c.type) .multipleOfWrongType,
      failIf (multipleOfNonPositive c.multipleOf) .multipleOfNotPositive,
      failIf (c.minimum.isSome && c.exclusiveMinimum.isSome)
        .minimumAndExclusiveMinimum,
      failIf (c.maximum.isSome && c.exclusiveMaximum.isSome)
        .maximumAndExclusiveMaximum] with
    | .error e => exact ⟨e, rfl⟩
    | .ok u =>
      exfalso
      have hall := runChecks_ok_all _ hV
        (failIf (multipleOfNonPositive c.multipleOf) .multipleOfNotPositive)
        (by simp)
      simp only [Schema.core] at h
      rw [h] at hall
      simp [failIf] at hall

/-- The sub-schema used as a schema-valued additionalProperties: one
property "p" carrying the boolean required flag. -/
def apSubSchema : Schema := .mk { emptySF with
  properties := some [("p", .mk { emptySF with
    required := { strings := none, bool := true } })] }

/-- A schema whose additionalProperties holds the sub-schema. -/
def apFailing : Schema := .mk { emptySF with
  additionalProperties := .schemaVal apSubSchema }

/-- C5: the `AdditionalProperties` branch of `FixRequiredProperties` fixes
a discarded value copy, so the field always comes through unchanged; at the
failing input the sub-schema keeps its empty required list, although
running the normalizer on that same sub-schema directly would produce the
required list containing "p" that the claim expects. -/
theorem C5_additionalProperties_not_normalized :
    (∀ s : Schema, (FixRequiredProperties s).core.additionalProperties =
      s.core.additionalProperties) ∧
    (FixRequiredProperties apFailing).core.additionalProperties =
      .schemaVal apSubSchema ∧
    apSubSchema.core.required.strings = none ∧
    (FixRequiredProperties apSubSchema).core.required.strings = some ["p"] := by
  have hgen : ∀ s : Schema, (FixRequiredProperties s).core.additionalProperties =
      s.core.additionalProperties := by
    intro s
    cases s with
    | mk c =>
      rw [FixRequiredProperties]
      simp [Schema.core]
  refine ⟨hgen, ?_, rfl, ?_⟩
  · rw [hgen]; rfl
  · simp [apSubSchema, FixRequiredProperties, fixPropsStep, fixProps, fixOpt,
      fixList, containsOptStr, appendOptStr, Contains, Index, emptySF,
      Schema.core]

/-- C6 counterexample: on the JSON decode path, an input that is neither
of the two accepted shapes is silently accepted with the field left unset
(the Go methods return nil), for both union types. -/
theorem C6_counterexample :
    BoolOrArrayOfString.UnmarshalJSON { strings := none, bool := false } (.num 5) =
      .ok { strings := none, bool := false } ∧
    StringOrArrayOfString.UnmarshalJSON [] (.obj []) = .ok [] :=
  ⟨rfl, rfl⟩

/-- C6 (amended): the YAML decode paths do fail with a type-mismatch error
when the input is neither accepted shape — `BoolOrArrayOfString` rejects
any node tagged neither `!!seq` nor `!!bool`, and `StringOrArrayOfString`
propagates the scalar decode failure for a non-sequence that is not a
string — but the JSON decode paths return success and leave the receiver
unchanged. -/
theorem C6_amended :
    (∀ (s : BoolOrArrayOfString) (v : YamlNode),
      v.tag ≠ "!!seq" → v.tag ≠ "!!bool" →
      s.UnmarshalYAML v =
        .error "could not unmarshal value to slice of string or bool") ∧
    (∀ (v : YamlNode) (msg : String), v.tag ≠ "!!seq" →
      decodeYamlStr v = .error msg →
      StringOrArrayOfString.UnmarshalYAML v = .error msg) ∧
    (∀ (s : BoolOrArrayOfString) (j : Json),
      jsonToStrList j = none → jsonToBool j = none →
      s.UnmarshalJSON j = .ok s) ∧
    (∀ (s : StringOrArrayOfString) (j : Json),
      jsonToStrList j = none → jsonToStr j = none →
      StringOrArrayOfString.UnmarshalJSON s j = .ok s) := by
  refine ⟨?_, ?_, ?_, ?_⟩
  · intro s v h1 h2
    simp [BoolOrArrayOfString.UnmarshalYAML, h1, h2]
  · intro v msg h1 h2
    simp [StringOrArrayOfString.UnmarshalYAML, h1, h2, Bind.bind, Except.bind]
  · intro s j h1 h2
    simp [BoolOrArrayOfString.UnmarshalJSON, h1, h2]
  · intro s j h1 h2
    simp [StringOrArrayOfString.UnmarshalJSON, h1, h2]

/-- C6 amended witness: a mapping node is rejected by both YAML decoders,
and a JSON number and object are silently accepted by the JSON decoders. -/
theorem C6_amended_witness :
    BoolOrArrayOfString.UnmarshalYAML { strings := none, bool := false }
      (.mk .mapping "!!map" "" "" [] none) =
      .error "could not unmarshal value to slice of string or bool" ∧
    StringOrArrayOfString.UnmarshalYAML (.mk .mapping "!!map" "" "" [] none) =
      .error "cannot unmarshal node into string" ∧
    BoolOrArrayOfString.UnmarshalJSON { strings := none, bool := false } (.num 5) =
      .ok { strings := none, bool := false } ∧
    StringOrArrayOfString.UnmarshalJSON ["x"] (.obj []) = .ok ["x"] :=
  ⟨C6_amended.1 _ _ (by decide) (by decide),
   C6_amended.2.1 _ _ (by decide) rfl,
   C6_amended.2.2.1 _ _ rfl rfl,
   C6_amended.2.2.2 _ _ rfl rfl⟩

/-- The JSON value rendered for the "required" key when a `Schema` node is
encoded: the field has type `BoolOrArrayOfString` with tag
json:"required,omitempty"; a struct-typed field is never considered empty
by encoding/json, so the field is always emitted, through the
pointer-receiver `MarshalJSON` of `BoolOrArrayOfString` (the struct is
marshalled via an addressable alias, schema.go 186-212). -/
def Schema.requiredJson (s : Schema) : Json :=
  s.core.required.MarshalJSON

/-- C10: the required field of an encoded schema node is always a JSON
array of strings — never a boolean — and a nil or empty required list is
still emitted as the empty array. -/
theorem C10_required_always_list :
    (∀ s : Schema, s.requiredJson = .arr (((s.core.required.strings).getD []).map .str)) ∧
    (∀ (s : Schema) (b : Bool), s.requiredJson ≠ .bool b) ∧
    (∀ s : Schema, s.core.required.strings = none → s.requiredJson = .arr []) := by
  have h1 : ∀ s : Schema, s.requiredJson =
      .arr (((s.core.required.strings).getD []).map .str) := by
    intro s
    cases hs : s.core.required.strings <;>
      simp [Schema.requiredJson, BoolOrArrayOfString.MarshalJSON, hs]
  refine ⟨h1, ?_, ?_⟩
  · intro s b
    rw [h1]
    intro hcontra
    cases hcontra
  · intro s h
    rw [h1, h]
    rfl

/-- C10 witness: the zero schema (required never populated) still encodes
required as the empty array. -/
theorem C10_required_always_list_witness :
    emptySchema.requiredJson = .arr [] :=
  C10_required_always_list.2.2 emptySchema rfl

/-- A `!!str` scalar node carrying the given text. -/
def strScalarNode (t : String) : YamlNode := .mk .scalar "!!str" t "" [] none

/-- A `!!seq` node whose elements are string scalars of the given names. -/
def mkTypeSeqNode (ts : List String) : YamlNode :=
  .mk .sequence "!!seq" "" "" (ts.map strScalarNode) none

theorem decodeTypeSeq_strs (ts : List String) :
    decodeTypeSeq (ts.map strScalarNode) = .ok ts := by
  induction ts with
  | nil => rfl
  | cons t rest ih =>
    simp [decodeTypeSeq, strScalarNode, YamlNode.tag, YamlNode.kind,
      YamlNode.value, decodeYamlStr, ih, Bind.bind, Except.bind]

/-- C8: decoding a list of recognized type names through the
`StringOrArrayOfString` YAML decoder and re-encoding through its JSON
encoder yields the bare scalar form for exactly one name and the list form
for two or more; a null-tagged sequence element decodes to the literal
string "null". -/
theorem C8_type_list_roundtrip (ts : List String)
    (hrec : ∀ t ∈ ts, isRecognizedTypeName t = true) :
    StringOrArrayOfString.UnmarshalYAML (mkTypeSeqNode ts) = .ok ts ∧
    (ts.length = 1 → StringOrArrayOfString.MarshalJSON ts = .str (ts.headD "")) ∧
    (2 ≤ ts.length → StringOrArrayOfString.MarshalJSON ts = .arr (ts.map .str)) ∧
    StringOrArrayOfString.UnmarshalYAML
      (.mk .sequence "!!seq" "" "" [.mk .scalar "!!null" "" "" [] none] none) =
      .ok ["null"] := by
  refine ⟨?_, ?_, ?_, rfl⟩
  · simp [StringOrArrayOfString.UnmarshalYAML, mkTypeSeqNode, YamlNode.tag,
      YamlNode.content, decodeTypeSeq_strs]
  · intro h
    match ts with
    | [x] => rfl
  · intro h
    match ts with
    | x :: y :: rest => rfl

/-- C8 witness at a single recognized name and at a two-element list with
a null entry. -/
theorem C8_type_list_roundtrip_witness :
    StringOrArrayOfString.UnmarshalYAML (mkTypeSeqNode ["string"]) = .ok ["string"] ∧
    StringOrArrayOfString.MarshalJSON ["string"] = .str "string" ∧
    StringOrArrayOfString.UnmarshalYAML (mkTypeSeqNode ["integer", "null"]) =
      .ok ["integer", "null"] ∧
    StringOrArrayOfString.MarshalJSON ["integer", "null"] =
      .arr [.str "integer", .str "null"] :=
  ⟨(C8_type_list_roundtrip ["string"] (by decide)).1,
   (C8_type_list_roundtrip ["string"] (by decide)).2.1 rfl,
   (C8_type_list_roundtrip ["integer", "null"] (by decide)).1,
   (C8_type_list_roundtrip ["integer", "null"] (by decide)).2.2.1 (by decide)⟩

theorem scanGo_outside_run (ls : List String) :
    ∀ (rest raw desc : List String),
    (∀ l ∈ ls, goStartsWith l schemaBlockMarker = false) →
    scanGo (ls ++ rest) false raw desc =
      scanGo rest false raw ((ls.map descTrim).reverse ++ desc) := by
  induction ls with
  | nil => intro rest raw desc _; simp
  | cons l ls ih =>
    intro rest raw desc h
    have hl : goStartsWith l schemaBlockMarker = false := h l (by simp)
    simp only [List.cons_append, scanGo, hl, Bool.false_eq_true, if_false,
      List.append_eq]
    rw [ih rest raw (descTrim l :: desc) (fun x hx => h x (by simp [hx]))]
    simp

theorem scanGo_inside_run (ls : List String) :
    ∀ (rest raw desc : List String),
    (∀ l ∈ ls, goStartsWith l schemaBlockMarker = false) →
    scanGo (ls ++ rest) true raw desc =
      scanGo rest true ((ls.map rawTrim).reverse ++ raw) desc := by
  induction ls with
  | nil => intro rest raw desc _; simp
  | cons l ls ih =>
    intro rest raw desc h
    have hl : goStartsWith l schemaBlockMarker = false := h l (by simp)
    simp only [List.cons_append, scanGo, hl, Bool.false_eq_true, if_false, if_true,
      List.append_eq]
    rw [ih rest (rawTrim l :: raw) desc (fun x hx => h x (by simp [hx]))]
    simp

/-- The line refuting the exact-match reading of the delimiter rule: it
extends the delimiter token rather than matching it exactly. -/
def extendedMarkerLine : String := "# @schemaXtra"

/-- C7 counterexample: a line that merely extends the delimiter token (so
it is not exactly the delimiter) still toggles the inside-annotation-block
flag, because the source tests `strings.HasPrefix`; a comment consisting
only of that line therefore ends with the flag open and
`GetSchemaFromComment` reports an unclosed block instead of treating the
line as description text. -/
theorem C7_counterexample :
    extendedMarkerLine ≠ schemaBlockMarker ∧
    (scanComment extendedMarkerLine).2.2 = true ∧
    GetSchemaFromComment (fun _ => .ok emptySchema) extendedMarkerLine =
      .error ("unclosed schema block found in comment: " ++ extendedMarkerLine) := by
  refine ⟨by decide, ?_, ?_⟩ <;> rfl

/-- C7 (amended): the flag toggles exactly on lines that start with the
delimiter token (prefix match, not exact match).  For a comment whose
lines form one prefix-delimited block, the lines between the two delimiter
lines become the raw annotation text, the lines outside become description
text with the comment marker and one space stripped, and the flag ends
closed. -/
theorem C7_amended (comment : String) (pre body post : List String) (d1 d2 : String)
    (hsplit : goScanLines comment = pre ++ d1 :: (body ++ d2 :: post))
    (hpre : ∀ l ∈ pre, goStartsWith l schemaBlockMarker = false)
    (hbody : ∀ l ∈ body, goStartsWith l schemaBlockMarker = false)
    (hpost : ∀ l ∈ post, goStartsWith l schemaBlockMarker = false)
    (hd1 : goStartsWith d1 schemaBlockMarker = true)
    (hd2 : goStartsWith d2 schemaBlockMarker = true) :
    scanComment comment =
      (body.map rawTrim, pre.map descTrim ++ post.map descTrim, false) := by
  unfold scanComment
  rw [hsplit]
  rw [scanGo_outside_run pre (d1 :: (body ++ d2 :: post)) [] [] hpre]
  simp only [scanGo, hd1, if_true, Bool.not_false]
  rw [scanGo_inside_run body (d2 :: post) [] ((pre.map descTrim).reverse ++ []) hbody]
  simp only [scanGo, hd2, if_true, Bool.not_true]
  have hlast := scanGo_outside_run post [] ((body.map rawTrim).reverse ++ [])
    ((pre.map descTrim).reverse ++ []) hpost
  simp only [List.append_nil] at hlast ⊢
  rw [hlast]
  simp [scanGo]

/-- C7 amended witness on a concrete five-line comment. -/
theorem C7_amended_witness :
    scanComment "# top\n# @schema\n# type: string\n# @schema\n# tail" =
      (["type: string"], ["top", "tail"], false) := by
  have h := C7_amended "# top\n# @schema\n# type: string\n# @schema\n# tail"
    ["# top"] ["# type: string"] ["# tail"] "# @schema" "# @schema"
    (by rfl) (by decide) (by decide) (by decide) (by decide) (by decide)
  rw [h]
  rfl

theorem Contains_eq_decide_mem {α : Type} [DecidableEq α] (l : List α) (v : α) :
    Contains l v = decide (v ∈ l) := by
  by_cases h : v ∈ l
  · simp [h, (Contains_iff_mem l v).mpr h]
  · have hf : Contains l v = false := by
      rw [Bool.eq_false_iff]
      intro hc
      exact h ((Contains_iff_mem l v).mp hc)
    simp [h, hf]

theorem containsOptStr_append (req : Option (List String)) (x y : String) :
    containsOptStr (appendOptStr req y) x =
      (containsOptStr req x || decide (x = y)) := by
  simp [containsOptStr, appendOptStr, Contains_eq_decide_mem]

theorem Fix_required_bool (s : Schema) :
    (FixRequiredProperties s).core.required.bool = s.core.required.bool := by
  cases s with
  | mk c =>
    rw [FixRequiredProperties]
    simp [Schema.core]

theorem fixProps_mono (l : List (String × Schema)) :
    ∀ (req : Option (List String)) (x : String), containsOptStr req x = true →
      containsOptStr (fixProps req l).2 x = true := by
  induction l with
  | nil => intro req x h; simpa [fixProps] using h
  | cons p rest ih =>
    intro req x h
    obtain ⟨name, v⟩ := p
    rw [fixProps]
    apply ih
    by_cases hb : ((FixRequiredProperties v).core.required.bool &&
        !containsOptStr req name) = true
    · simp [hb, containsOptStr_append, h]
    · simp [hb, h]

theorem fixProps_saturated (l : List (String × Schema)) :
    ∀ (req : Option (List String)), ∀ p ∈ (fixProps req l).1,
      p.2.core.required.bool = true →
      containsOptStr (fixProps req l).2 p.1 = true := by
  induction l with
  | nil => intro req p hp; simp [fixProps] at hp
  | cons q rest ih =>
    intro req p hp hb
    obtain ⟨name, v⟩ := q
    rw [fixProps] at hp ⊢
    simp only [List.mem_cons] at hp
    rcases hp with hp | hp
    · subst hp
      simp only at hb
      rw [Fix_required_bool] at hb
      apply fixProps_mono
      by_cases hc : containsOptStr req name = true
      · by_cases h2 : ((FixRequiredProperties v).core.required.bool &&
            !containsOptStr req name) = true <;>
          simp [h2, containsOptStr_append, hc]
      · have h2 : ((FixRequiredProperties v).core.required.bool &&
            !containsOptStr req name) = true := by
          simp [Fix_required_bool, hb]
          simpa using hc
        simp [h2, containsOptStr_append]
    · exact ih _ p hp hb

theorem fixProps_fixpoint (l : List (String × Schema)) :
    ∀ (req : Option (List String)),
    (∀ p ∈ l, FixRequiredProperties p.2 = p.2) →
    (∀ p ∈ l, p.2.core.required.bool = true → containsOptStr req p.1 = true) →
    fixProps req l = (l, req) := by
  induction l with
  | nil => intro req _ _; rw [fixProps]
  | cons q rest ih =>
    intro req hfix hsat
    obtain ⟨name, v⟩ := q
    rw [fixProps]
    have h1 : FixRequiredProperties v = v := hfix (name, v) (by simp)
    have hcond : ((FixRequiredProperties v).core.required.bool &&
        !containsOptStr req name) = false := by
      by_cases hb : v.core.required.bool = true
      · have hc : containsOptStr req name = true := hsat (name, v) (by simp) hb
        simp [h1, hb, hc]
      · simp only [Bool.not_eq_true] at hb
        simp [h1, hb]
    have h2 := ih req (fun p hp => hfix p (by simp [hp]))
      (fun p hp => hsat p (by simp [hp]))
    rw [h1] at hcond
    simp only [h1, hcond, Bool.false_eq_true, if_false, h2]

theorem fixProps_mem (l : List (String × Schema)) :
    ∀ (req : Option (List String)), ∀ p ∈ (fixProps req l).1,
      ∃ q ∈ l, p = (q.1, FixRequiredProperties q.2) := by
  induction l with
  | nil => intro req p hp; simp [fixProps] at hp
  | cons q rest ih =>
    intro req p hp
    obtain ⟨name, v⟩ := q
    rw [fixProps] at hp
    simp only [List.mem_cons] at hp
    rcases hp with hp | hp
    · exact ⟨(name, v), by simp, hp⟩
    · obtain ⟨q2, hq2, he⟩ := ih _ p hp
      exact ⟨q2, by simp [hq2], he⟩

theorem Fix_idem_aux : ∀ (n : Nat) (s : Schema), sizeOf s ≤ n →
    FixRequiredProperties (FixRequiredProperties s) = FixRequiredProperties s := by
  intro n
  induction n with
  | zero =>
    intro s h
    cases s with
    | mk c => simp at h
  | succ n ih =>
    intro s hs
    cases s with
    | mk c =>
      have hOpt : ∀ o : Option Schema, sizeOf o ≤ n + 1 →
          fixOpt (fixOpt o) = fixOpt o := by
        intro o ho
        cases o with
        | none => simp [fixOpt]
        | some it =>
          simp only [fixOpt]
          rw [ih it (by simp at ho; omega)]
      have hList : ∀ l : List Schema, (∀ x ∈ l, sizeOf x ≤ n) →
          fixList (fixList l) = fixList l := by
        intro l hb
        induction l with
        | nil => simp [fixList]
        | cons x xs ihl =>
          simp only [fixList]
          rw [ih x (hb x (by simp)), ihl (fun y hy => hb y (by simp [hy]))]
      have hsz : sizeOf c ≤ n := by
        simp at hs
        omega
      have hszf : sizeOf c.properties ≤ sizeOf c ∧ sizeOf c.thenS ≤ sizeOf c ∧
          sizeOf c.ifS ≤ sizeOf c ∧ sizeOf c.elseS ≤ sizeOf c ∧
          sizeOf c.items ≤ sizeOf c ∧ sizeOf c.notS ≤ sizeOf c ∧
          sizeOf c.anyOf ≤ sizeOf c ∧ sizeOf c.allOf ≤ sizeOf c ∧
          sizeOf c.oneOf ≤ sizeOf c := by
        cases c
        simp
        omega
      have hPropsIdem :
          fixPropsStep (fixPropsStep c.properties c.required.strings c.type).1
            (fixPropsStep c.properties c.required.strings c.type).2.1
            (fixPropsStep c.properties c.required.strings c.type).2.2 =
          fixPropsStep c.properties c.required.strings c.type := by
        cases hp : c.properties with
        | none => simp [fixPropsStep]
        | some ps =>
          have hb : ∀ p ∈ ps, sizeOf p.2 ≤ n := by
            intro p hmem
            have h1 := List.sizeOf_lt_of_mem hmem
            have h2 : sizeOf c.properties ≤ sizeOf c := hszf.1
            rw [hp] at h2
            obtain ⟨pa, pb⟩ := p
            simp at h1 h2 ⊢
            omega
          simp only [fixPropsStep]
          have hfix : ∀ p ∈ (fixProps c.required.strings ps).1,
              FixRequiredProperties p.2 = p.2 := by
            intro p hp2
            obtain ⟨q, hq, he⟩ := fixProps_mem ps c.required.strings p hp2
            rw [he]
            exact ih q.2 (hb q hq)
          have hsat := fixProps_saturated ps c.required.strings
          rw [fixProps_fixpoint _ _ hfix hsat]
          by_cases h : Contains c.type "object" = true
          · simp [h]
          · simp only [h, Bool.false_eq_true, if_false]
            simp [Contains_eq_decide_mem]
      rw [FixRequiredProperties]
      rw [FixRequiredProperties]
      simp only
      rw [hPropsIdem]
      rw [hOpt c.thenS (by omega), hOpt c.ifS (by omega), hOpt c.elseS (by omega),
        hOpt c.items (by omega), hOpt c.notS (by omega)]
      rw [hList c.anyOf ?ha, hList c.allOf ?hb, hList c.oneOf ?hc]
      case ha =>
        intro x hx
        have h1 := List.sizeOf_lt_of_mem hx
        have h2 := hszf.2.2.2.2.2.2.1
        omega
      case hb =>
        intro x hx
        have h1 := List.sizeOf_lt_of_mem hx
        have h2 := hszf.2.2.2.2.2.2.2.1
        omega
      case hc =>
        intro x hx
        have h1 := List.sizeOf_lt_of_mem hx
        have h2 := hszf.2.2.2.2.2.2.2.2
        omega

/-- C4: the required-property normalizer is idempotent: running
`FixRequiredProperties` twice produces the same schema as running it
once. -/
theorem C4_fix_required_properties_idempotent (s : Schema) :
    FixRequiredProperties (FixRequiredProperties s) = FixRequiredProperties s :=
  Fix_idem_aux (sizeOf s) s (le_refl _)

/-! ## Lemmas about the per-key synthesis pipeline -/

theorem applyHelmDocsCompat_required (env : SynthEnv) (hc : String) (s : Schema) :
    (applyHelmDocsCompat env hc s).core.required = s.core.required := by
  unfold applyHelmDocsCompat
  by_cases h1 : (env.parseHelmDocsComment hc).default ≠ "" <;>
    by_cases h2 : (env.parseHelmDocsComment hc).description ≠ "" <;>
    by_cases h3 : (env.parseHelmDocsComment hc).valueType ≠ "" <;>
    cases hh : helmDocsTypeToSchemaType (env.parseHelmDocsComment hc).valueType <;>
    simp [h1, h2, h3, hh, Schema.core]

theorem applyHelmDocsCompat_ref (env : SynthEnv) (hc : String) (s : Schema) :
    (applyHelmDocsCompat env hc s).core.ref = s.core.ref := by
  unfold applyHelmDocsCompat
  by_cases h1 : (env.parseHelmDocsComment hc).default ≠ "" <;>
    by_cases h2 : (env.parseHelmDocsComment hc).description ≠ "" <;>
    by_cases h3 : (env.parseHelmDocsComment hc).valueType ≠ "" <;>
    cases hh : helmDocsTypeToSchemaType (env.parseHelmDocsComment hc).valueType <;>
    simp [h1, h2, h3, hh, Schema.core]

theorem applyHelmDocsCompat_hasData_true (env : SynthEnv) (hc : String) (s : Schema)
    (h : s.core.hasData = true) :
    (applyHelmDocsCompat env hc s).core.hasData = true := by
  unfold applyHelmDocsCompat
  by_cases h1 : (env.parseHelmDocsComment hc).default ≠ "" <;>
    by_cases h2 : (env.parseHelmDocsComment hc).description ≠ "" <;>
    by_cases h3 : (env.parseHelmDocsComment hc).valueType ≠ "" <;>
    cases hh : helmDocsTypeToSchemaType (env.parseHelmDocsComment hc).valueType <;>
    simp [h1, h2, h3, hh, Schema.core, h] <;>
    (cases s with
     | mk c => simpa [Schema.core] using h)

theorem resolveRefStep_ref_empty (env : SynthEnv) (p : String) (s : Schema)
    (h : s.core.ref = "") : resolveRefStep env p s = .ok s := by
  simp [resolveRefStep, h]

theorem resolveRefStep_missing (env : SynthEnv) (p : String) (s : Schema)
    (h1 : ¬s.core.ref = "") (h2 : goStartsWith s.core.ref "#" = false)
    (h3 : env.resolveRelFile p ((goSplit s.core.ref '#').headD "") = none) :
    resolveRefStep env p s = .ok s := by
  rw [List.headD_eq_head?_getD] at h3
  rw [resolveRefStep]
  simp [h1, h2, h3]

theorem validateOrInfer_hasData (s : Schema) (vN : YamlNode) (k : String)
    (h : s.core.hasData = true) (hv : s.Validate = .ok ()) :
    validateOrInfer s vN k = .ok s := by
  simp [validateOrInfer, h, hv]

theorem validateOrInfer_preserves (s : Schema) (vN : YamlNode) (k : String)
    (s2 : Schema) (hok : validateOrInfer s vN k = .ok s2) :
    s2.core.required = s.core.required ∧ s2.core.ref = s.core.ref ∧
      s2.core.hasData = s.core.hasData := by
  unfold validateOrInfer at hok
  split at hok
  · split at hok
    · simp at hok
    · simp at hok
      subst hok
      exact ⟨rfl, rfl, rfl⟩
  · split at hok
    · simp at hok
    · simp at hok
      subst hok
      simp [Schema.core]

theorem processPairTail_ref_nonempty (a : SynthArgs) (kN vN : YamlNode)
    (d : String) (ks3 : Schema) (req : Option (List String))
    (h : ¬ks3.core.ref = "") :
    processPairTail a kN vN d ks3 req = .ok (ks3, req) := by
  rw [processPairTail]
  simp [h]

/-- The value of the parent required list after the ref-free tail of one
key/value pair (the `req2` of schema.go 819-824). -/
def tailReq2 (a : SynthArgs) (keyVal : String) (ks3 : Schema)
    (req : Option (List String)) : Option (List String) :=
  if ks3.core.required.bool ∨
      ((ks3.core.required.strings.getD []).length = 0 ∧
        a.skipAutoGeneration.required = false ∧ ks3.core.hasData = false) then
    (if containsOptStr req keyVal then req else appendOptStr req keyVal)
  else req

theorem processPairTail_req (a : SynthArgs) (kN vN : YamlNode) (d : String)
    (ks3 : Schema) (req : Option (List String)) (s : Schema)
    (req2 : Option (List String)) (h : ks3.core.ref = "")
    (hok : processPairTail a kN vN d ks3 req = .ok (s, req2)) :
    req2 = tailReq2 a kN.value ks3 req := by
  rw [processPairTail] at hok
  rw [h] at hok
  split at hok
  · rw [tailReq2]
    split at hok
    · rename_i hg
      rw [if_pos hg]
      split at hok
      · rename_i hc
        rw [if_pos hc]
        split at hok
        · simp at hok
        · simp only [Except.ok.injEq, Prod.mk.injEq] at hok
          exact hok.2.symm
      · rename_i hc
        rw [if_neg hc]
        split at hok
        · simp at hok
        · simp only [Except.ok.injEq, Prod.mk.injEq] at hok
          exact hok.2.symm
    · rename_i hg
      rw [if_neg hg]
      split at hok
      · simp at hok
      · simp only [Except.ok.injEq, Prod.mk.injEq] at hok
        exact hok.2.symm
  · rename_i hfalse
    exact absurd rfl hfalse

theorem processPairTail_schema (a : SynthArgs) (kN vN : YamlNode) (d : String)
    (ks3 : Schema) (req : Option (List String)) (s : Schema)
    (req2 : Option (List String)) (h : ks3.core.ref = "")
    (hok : processPairTail a kN vN d ks3 req = .ok (s, req2)) :
    processPairSchema a kN vN d ks3 = .ok s := by
  rw [processPairTail] at hok
  rw [h] at hok
  split at hok
  · split at hok
    · split at hok
      · split at hok
        · simp at hok
        · rename_i heq
          simp only [Except.ok.injEq, Prod.mk.injEq] at hok
          rw [heq, hok.1]
      · split at hok
        · simp at hok
        · rename_i heq
          simp only [Except.ok.injEq, Prod.mk.injEq] at hok
          rw [heq, hok.1]
    · split at hok
      · simp at hok
      · rename_i heq
        simp only [Except.ok.injEq, Prod.mk.injEq] at hok
        rw [heq, hok.1]
  · rename_i hfalse
    exact absurd rfl hfalse

theorem tailReq2_options (a : SynthArgs) (keyVal : String) (ks3 : Schema)
    (req : Option (List String)) :
    tailReq2 a keyVal ks3 req = req ∨
      (containsOptStr req keyVal = false ∧
        tailReq2 a keyVal ks3 req = appendOptStr req keyVal) := by
  rw [tailReq2]
  split
  · split
    · left; rfl
    · rename_i hc
      right
      exact ⟨by simpa using hc, rfl⟩
  · left; rfl

theorem tailReq2_contains_self (a : SynthArgs) (keyVal : String) (ks3 : Schema)
    (req : Option (List String)) (hb : ks3.core.required.bool = true) :
    containsOptStr (tailReq2 a keyVal ks3 req) keyVal = true := by
  rw [tailReq2]
  rw [if_pos (Or.inl hb)]
  split
  · rename_i hc; exact hc
  · simp [containsOptStr_append]

theorem processPairResolved_req_options (a : SynthArgs) (kN vN : YamlNode)
    (req : Option (List String)) (s : Schema) (req2 : Option (List String))
    (hok : processPairResolved a kN vN req = .ok (s, req2)) :
    req2 = req ∨ (containsOptStr req kN.value = false ∧
      req2 = appendOptStr req kN.value) := by
  rw [processPairResolved] at hok
  simp only [bind, Except.bind, pure, Except.pure] at hok
  split at hok
  · simp at hok
  · split at hok
    · simp at hok
    · rename_i ks2 hres
      split at hok
      · simp at hok
      · rename_i ks3 hvi
        by_cases h : ks3.core.ref = ""
        · have := processPairTail_req a kN vN _ ks3 req s req2 h hok
          rw [this]
          exact tailReq2_options a kN.value ks3 req
        · rw [processPairTail_ref_nonempty a kN vN _ ks3 req h] at hok
          simp only [Except.ok.injEq, Prod.mk.injEq] at hok
          left
          exact hok.2.symm

theorem processPair_req_options (a : SynthArgs) (kN vN : YamlNode)
    (req : Option (List String)) (s : Schema) (req2 : Option (List String))
    (hok : processPair a kN vN req = .ok (s, req2)) :
    req2 = req ∨ (containsOptStr req kN.value = false ∧
      req2 = appendOptStr req kN.value) := by
  cases vN with
  | mk kind tag value hc content aliasT =>
    simp only [processPair.eq_def] at hok
    split at hok
    · split at hok
      · exact processPairResolved_req_options a kN _ req s req2 hok
      · simp at hok
    · exact processPairResolved_req_options a kN _ req s req2 hok

theorem processPairResolved_fires (a : SynthArgs) (kN vN : YamlNode)
    (req : Option (List String)) (s : Schema) (req2 : Option (List String))
    (ann : Schema) (desc : String)
    (hok : processPairResolved a kN vN req = .ok (s, req2))
    (hg : GetSchemaFromComment a.env.decodeAnn
      (if a.keepFullComment then kN.headComment
        else a.env.trimLeadingParagraphs kN.headComment) = .ok (ann, desc))
    (hb : ann.core.required.bool = true)
    (hr : ann.core.ref = "") :
    containsOptStr req2 kN.value = true := by
  have hb1 : (if a.helmDocsCompatibilityMode then
      applyHelmDocsCompat a.env kN.headComment ann else ann).core.required.bool = true := by
    split
    · rw [applyHelmDocsCompat_required]; exact hb
    · exact hb
  have hr1 : (if a.helmDocsCompatibilityMode then
      applyHelmDocsCompat a.env kN.headComment ann else ann).core.ref = "" := by
    split
    · rw [applyHelmDocsCompat_ref]; exact hr
    · exact hr
  rw [processPairResolved] at hok
  simp only [bind, Except.bind, pure, Except.pure] at hok
  split at hok
  · simp at hok
  · rename_i r hgr
    rw [hg] at hgr
    have hreq : (ann, desc) = r := Except.ok.inj hgr
    subst hreq
    split at hok
    · simp at hok
    · rename_i ks2 hres
      rw [resolveRefStep_ref_empty a.env a.valuesPath _ hr1] at hres
      have hks2 : (if a.helmDocsCompatibilityMode then
          applyHelmDocsCompat a.env kN.headComment ann else ann) = ks2 :=
        Except.ok.inj hres
      split at hok
      · simp at hok
      · rename_i ks3 hvi
        have hpres := validateOrInfer_preserves _ vN kN.value ks3 hvi
        have hb3 : ks3.core.required.bool = true := by
          rw [hpres.1, ← hks2]; exact hb1
        have hr3 : ks3.core.ref = "" := by
          rw [hpres.2.1, ← hks2]; exact hr1
        have := processPairTail_req a kN vN _ ks3 req s req2 hr3 hok
        rw [this]
        exact tailReq2_contains_self a kN.value ks3 req hb3

theorem processPair_fires (a : SynthArgs) (kN vN : YamlNode)
    (req : Option (List String)) (s : Schema) (req2 : Option (List String))
    (ann : Schema) (desc : String)
    (hok : processPair a kN vN req = .ok (s, req2))
    (hg : GetSchemaFromComment a.env.decodeAnn
      (if a.keepFullComment then kN.headComment
        else a.env.trimLeadingParagraphs kN.headComment) = .ok (ann, desc))
    (hb : ann.core.required.bool = true)
    (hr : ann.core.ref = "") :
    containsOptStr req2 kN.value = true := by
  cases vN with
  | mk kind tag value hc content aliasT =>
    simp only [processPair.eq_def] at hok
    split at hok
    · split at hok
      · exact processPairResolved_fires a kN _ req s req2 ann desc hok hg hb hr
      · simp at hok
    · exact processPairResolved_fires a kN _ req s req2 ann desc hok hg hb hr

/-- Occurrence count of a name in a possibly-nil required list. -/
def cntOpt (req : Option (List String)) (x : String) : Nat :=
  (req.getD []).count x

theorem cntOpt_append (req : Option (List String)) (x y : String) :
    cntOpt (appendOptStr req y) x =
      cntOpt req x + (if x = y then 1 else 0) := by
  simp only [cntOpt, appendOptStr, Option.getD_some, List.count_append]
  by_cases h : x = y <;> simp [h, List.count_singleton]

theorem cntOpt_zero_of_not_contains (req : Option (List String)) (x : String)
    (h : containsOptStr req x = false) : cntOpt req x = 0 := by
  rw [cntOpt, List.count_eq_zero]
  intro hm
  rw [containsOptStr, Contains_eq_decide_mem] at h
  simp [hm] at h

theorem cntOpt_pos_of_contains (req : Option (List String)) (x : String)
    (h : containsOptStr req x = true) : 1 ≤ cntOpt req x := by
  rw [containsOptStr, Contains_eq_decide_mem] at h
  simp only [decide_eq_true_eq] at h
  rw [cntOpt]
  exact List.one_le_count_iff.mpr h

theorem processPair_cnt (a : SynthArgs) (kN vN : YamlNode)
    (req : Option (List String)) (s : Schema) (req2 : Option (List String))
    (hok : processPair a kN vN req = .ok (s, req2)) (x : String) :
    cntOpt req x ≤ cntOpt req2 x ∧
      (cntOpt req2 x ≤ cntOpt req x ∨ cntOpt req2 x = 1) := by
  rcases processPair_req_options a kN vN req s req2 hok with h | ⟨hc, h⟩
  · rw [h]
    exact ⟨le_refl _, Or.inl (le_refl _)⟩
  · rw [h, cntOpt_append]
    by_cases hx : x = kN.value
    · subst hx
      have h0 := cntOpt_zero_of_not_contains req kN.value hc
      simp [h0]
    · simp [hx]

theorem processPairs_cnt (a : SynthArgs) : ∀ (n : Nat) (l : List YamlNode),
    l.length ≤ n → ∀ props req propsOut reqOut,
    processPairs a l props req = .ok (propsOut, reqOut) → ∀ x,
    cntOpt req x ≤ cntOpt reqOut x ∧
      (cntOpt reqOut x ≤ cntOpt req x ∨ cntOpt reqOut x = 1) := by
  intro n
  induction n with
  | zero =>
    intro l hl props req propsOut reqOut hok x
    match l with
    | [] =>
      rw [processPairs] at hok
      simp only [Except.ok.injEq, Prod.mk.injEq] at hok
      rw [← hok.2]
      exact ⟨le_refl _, Or.inl (le_refl _)⟩
    | y :: rest => simp at hl
  | succ n ih =>
    intro l hl props req propsOut reqOut hok x
    match l with
    | [] =>
      rw [processPairs] at hok
      simp only [Except.ok.injEq, Prod.mk.injEq] at hok
      rw [← hok.2]
      exact ⟨le_refl _, Or.inl (le_refl _)⟩
    | [y] =>
      rw [processPairs] at hok
      simp at hok
    | kN :: vN :: rest =>
      rw [processPairs] at hok
      simp only [bind, Except.bind] at hok
      split at hok
      · simp at hok
      · rename_i r hpair
        have hstep := processPair_cnt a kN vN req r.1 r.2 (by rw [hpair]) x
        have htail := ih rest (by simp at hl; omega)
          (assocSetOpt props kN.value r.1) r.2 propsOut reqOut hok x
        rcases hstep with ⟨hs1, hs2⟩
        rcases htail with ⟨ht1, ht2⟩
        constructor
        · omega
        · rcases hs2 with h2 | h2 <;> rcases ht2 with h3 | h3 <;> omega

theorem C9_pairs (a : SynthArgs) : ∀ (n : Nat) (pre : List YamlNode),
    pre.length ≤ n → pre.length % 2 = 0 →
    ∀ (kN vN : YamlNode) (rest : List YamlNode) props req propsOut reqOut
      (ann : Schema) (desc : String),
    processPairs a (pre ++ kN :: vN :: rest) props req = .ok (propsOut, reqOut) →
    GetSchemaFromComment a.env.decodeAnn
      (if a.keepFullComment then kN.headComment
        else a.env.trimLeadingParagraphs kN.headComment) = .ok (ann, desc) →
    ann.core.required.bool = true → ann.core.ref = "" →
    cntOpt req kN.value ≤ 1 → cntOpt reqOut kN.value = 1 := by
  intro n
  induction n with
  | zero =>
    intro pre hl _ kN vN rest props req propsOut reqOut ann desc hok hg hb hr hcnt
    match pre, hl with
    | [], _ =>
      simp only [List.nil_append] at hok
      rw [processPairs] at hok
      simp only [bind, Except.bind] at hok
      split at hok
      · simp at hok
      · rename_i r hpair
        have hfire := processPair_fires a kN vN req r.1 r.2 ann desc
          (by rw [hpair]) hg hb hr
        have hpos := cntOpt_pos_of_contains r.2 kN.value hfire
        have hstep := processPair_cnt a kN vN req r.1 r.2 (by rw [hpair]) kN.value
        have htail := processPairs_cnt a rest.length rest (le_refl _)
          (assocSetOpt props kN.value r.1) r.2 propsOut reqOut hok kN.value
        rcases hstep with ⟨hs1, hs2⟩
        rcases htail with ⟨ht1, ht2⟩
        rcases hs2 with h2 | h2 <;> rcases ht2 with h3 | h3 <;> omega
  | succ n ih =>
    intro pre hl heven kN vN rest props req propsOut reqOut ann desc hok hg hb hr hcnt
    match pre with
    | [] =>
      simp only [List.nil_append] at hok
      rw [processPairs] at hok
      simp only [bind, Except.bind] at hok
      split at hok
      · simp at hok
      · rename_i r hpair
        have hfire := processPair_fires a kN vN req r.1 r.2 ann desc
          (by rw [hpair]) hg hb hr
        have hpos := cntOpt_pos_of_contains r.2 kN.value hfire
        have hstep := processPair_cnt a kN vN req r.1 r.2 (by rw [hpair]) kN.value
        have htail := processPairs_cnt a rest.length rest (le_refl _)
          (assocSetOpt props kN.value r.1) r.2 propsOut reqOut hok kN.value
        rcases hstep with ⟨hs1, hs2⟩
        rcases htail with ⟨ht1, ht2⟩
        rcases hs2 with h2 | h2 <;> rcases ht2 with h3 | h3 <;> omega
    | [p] => simp at heven
    | p1 :: p2 :: pre2 =>
      simp only [List.cons_append] at hok
      rw [processPairs] at hok
      simp only [bind, Except.bind] at hok
      split at hok
      · simp at hok
      · rename_i r hpair
        have hstep := processPair_cnt a p1 p2 req r.1 r.2 (by rw [hpair]) kN.value
        have hcnt2 : cntOpt r.2 kN.value ≤ 1 := by
          rcases hstep with ⟨hs1, hs2⟩
          rcases hs2 with h2 | h2 <;> omega
        refine ih pre2 ?_ ?_ kN vN rest _ r.2 propsOut reqOut ann desc hok hg hb hr hcnt2
        · simp at hl
          omega
        · simp at heven
          omega

/-- C9 (amended): when a mapping is synthesized, a key whose annotation
sets the boolean required flag (and carries no reference) ends up in the
synthesized required-name list exactly once, provided the key occurs at
most once in the list to start with; the propagation guard never appends a
name that is already present, but a literal `required` list annotation
that already repeats the name is preserved as-is (see the
counterexample). -/
theorem C9_amended (a : SynthArgs) (tag val hc : String) (al : Option YamlNode)
    (pre : List YamlNode) (kN vN : YamlNode) (rest : List YamlNode)
    (parentReq : Option (List String)) (s : Schema) (reqOut : Option (List String))
    (ann : Schema) (desc : String)
    (heven : pre.length % 2 = 0)
    (hok : YamlToSchema a (.mk .mapping tag val hc (pre ++ kN :: vN :: rest) al)
      parentReq = .ok (s, reqOut))
    (hg : GetSchemaFromComment a.env.decodeAnn
      (if a.keepFullComment then kN.headComment
        else a.env.trimLeadingParagraphs kN.headComment) = .ok (ann, desc))
    (hb : ann.core.required.bool = true)
    (hr : ann.core.ref = "")
    (hcnt : cntOpt parentReq kN.value ≤ 1) :
    cntOpt reqOut kN.value = 1 := by
  rw [YamlToSchema] at hok
  rw [if_neg (by decide), if_pos rfl] at hok
  simp only [bind, Except.bind] at hok
  split at hok
  · simp at hok
  · rename_i r hpp
    simp only [Except.ok.injEq, Prod.mk.injEq] at hok
    have := C9_pairs a pre.length pre (le_refl _) heven kN vN rest none parentReq
      r.1 r.2 ann desc (by rw [hpp]) hg hb hr hcnt
    rw [← hok.2]
    exact this

/-! ## Small-step evaluation lemmas for concrete synthesis runs -/

theorem processPair_notAlias (a : SynthArgs) (kN : YamlNode) (kind : YKind)
    (tag value hc : String) (content : List YamlNode) (aliasT : Option YamlNode)
    (req : Option (List String)) (hk : ¬kind = .aliasNode) :
    processPair a kN (.mk kind tag value hc content aliasT) req =
      processPairResolved a kN (.mk kind tag value hc content aliasT) req := by
  simp only [processPair.eq_def]
  rw [if_neg hk]

theorem validateOrInfer_invalid (s : Schema) (vN : YamlNode) (k : String)
    (e : SchemaError) (h : s.core.hasData = true) (hv : s.Validate = .error e) :
    validateOrInfer s vN k =
      .error ("Error while validating jsonschema of key " ++ k) := by
  simp [validateOrInfer, h, hv]

theorem processPairResolved_stage (a : SynthArgs) (kN vN : YamlNode)
    (req : Option (List String)) (ann ks3 : Schema) (desc : String)
    (hg : GetSchemaFromComment a.env.decodeAnn
      (if a.keepFullComment then kN.headComment
        else a.env.trimLeadingParagraphs kN.headComment) = .ok (ann, desc))
    (hmode : a.helmDocsCompatibilityMode = false)
    (hdesc : a.dontRemoveHelmDocsPrefix = true)
    (hres : resolveRefStep a.env a.valuesPath ann = .ok ann)
    (hvi : validateOrInfer ann vN kN.value = .ok ks3) :
    processPairResolved a kN vN req = processPairTail a kN vN desc ks3 req := by
  rw [processPairResolved]
  simp only [Bind.bind, Except.bind, pure, Except.pure, hg, hmode,
    Bool.false_eq_true, if_false, if_true, hres, hvi]
  rw [if_neg (by simp [hdesc])]

theorem processPairResolved_fatal (a : SynthArgs) (kN vN : YamlNode)
    (req : Option (List String)) (ann : Schema) (desc msg : String)
    (hg : GetSchemaFromComment a.env.decodeAnn
      (if a.keepFullComment then kN.headComment
        else a.env.trimLeadingParagraphs kN.headComment) = .ok (ann, desc))
    (hmode : a.helmDocsCompatibilityMode = false)
    (hres : resolveRefStep a.env a.valuesPath ann = .ok ann)
    (hvi : validateOrInfer ann vN kN.value = .error msg) :
    processPairResolved a kN vN req = .error msg := by
  rw [processPairResolved]
  simp only [Bind.bind, Except.bind, pure, Except.pure, hg, hmode,
    Bool.false_eq_true, if_false, if_true, hres, hvi]

theorem processPairSchema_scalar (a : SynthArgs) (kN vN : YamlNode) (d : String)
    (ks3 : Schema) (hkind : vN.kind = .scalar)
    (hT : a.skipAutoGeneration.title = true)
    (hD : a.skipAutoGeneration.description = true)
    (hDef : a.skipAutoGeneration.default = true)
    (hAP : a.skipAutoGeneration.additionalProperties = true) :
    processPairSchema a kN vN d ks3 = .ok ks3 := by
  rw [processPairSchema]
  simp [hAP, hT, hD, hDef, hkind]

theorem processPairSchema_mapping (a : SynthArgs) (kN vN : YamlNode) (d : String)
    (ks3 inner : Schema) (reqNew : Option (List String))
    (hkind : vN.kind = .mapping) (hprops : ks3.core.properties = none)
    (hT : a.skipAutoGeneration.title = true)
    (hD : a.skipAutoGeneration.description = true)
    (hDef : a.skipAutoGeneration.default = true)
    (hAP : a.skipAutoGeneration.additionalProperties = true)
    (hrec : YamlToSchema a vN ks3.core.required.strings = .ok (inner, reqNew)) :
    processPairSchema a kN vN d ks3 = .ok (Schema.mk { ks3.core with
      properties := inner.core.properties
      required := { ks3.core.required with strings := reqNew } }) := by
  rw [processPairSchema]
  simp [hAP, hT, hD, hDef, hkind, hprops, Bind.bind, Except.bind, hrec]

theorem processPairTail_eval (a : SynthArgs) (kN vN : YamlNode) (d : String)
    (ks3 s : Schema) (req : Option (List String))
    (href : ks3.core.ref = "")
    (hschema : processPairSchema a kN vN d ks3 = .ok s) :
    processPairTail a kN vN d ks3 req = .ok (s, tailReq2 a kN.value ks3 req) := by
  rw [processPairTail]
  rw [if_pos href]
  rw [tailReq2]
  simp only [hschema]

theorem processPairs_two (a : SynthArgs) (k1 v1 : YamlNode)
    (props : Option (List (String × Schema))) (req : Option (List String))
    (s1 : Schema) (req1 : Option (List String))
    (h1 : processPair a k1 v1 req = .ok (s1, req1)) :
    processPairs a [k1, v1] props req =
      .ok (assocSetOpt props k1.value s1, req1) := by
  rw [processPairs]
  simp only [Bind.bind, Except.bind, h1]
  rw [processPairs]

theorem processPairs_two_err (a : SynthArgs) (k1 v1 : YamlNode)
    (props : Option (List (String × Schema))) (req : Option (List String))
    (msg : String) (h1 : processPair a k1 v1 req = .error msg) :
    processPairs a [k1, v1] props req = .error msg := by
  rw [processPairs]
  simp only [Bind.bind, Except.bind, h1]

theorem yamlToSchema_mapping (a : SynthArgs) (tag value hc : String)
    (content : List YamlNode) (aliasT : Option YamlNode)
    (parentReq : Option (List String)) (props2 : Option (List (String × Schema)))
    (req2 : Option (List String))
    (h : processPairs a content none parentReq = .ok (props2, req2)) :
    YamlToSchema a (.mk .mapping tag value hc content aliasT) parentReq =
      .ok (.mk { (NewSchema "object").core with properties := props2 }, req2) := by
  rw [YamlToSchema]
  rw [if_neg (by decide), if_pos rfl]
  simp only [Bind.bind, Except.bind, h]

theorem yamlToSchema_mapping_err (a : SynthArgs) (tag value hc : String)
    (content : List YamlNode) (aliasT : Option YamlNode)
    (parentReq : Option (List String)) (msg : String)
    (h : processPairs a content none parentReq = .error msg) :
    YamlToSchema a (.mk .mapping tag value hc content aliasT) parentReq =
      .error msg := by
  rw [YamlToSchema]
  rw [if_neg (by decide), if_pos rfl]
  simp only [Bind.bind, Except.bind, h]

/-! ## Concrete synthesis runs for the required-propagation claims -/

/-- External behavior for the concrete runs: the annotation decoder knows
the two annotation bodies used by the scenarios, no helm-docs data is
present, and no referenced file exists. -/
def envC9 : SynthEnv where
  decodeAnn := fun t =>
    if t = "required: true" then
      .ok (.mk { emptySF with required := { strings := none, bool := true } })
    else if t = "required:\n- k\n- k" then
      .ok (.mk { emptySF with required := { strings := some ["k", "k"], bool := false } })
    else .error "unexpected annotation text"
  trimLeadingParagraphs := fun s => s
  parseHelmDocsComment := fun _ => { default := "", description := "", valueType := "" }
  stripHelmDocsArtifacts := fun s => s
  resolveRelFile := fun _ _ => none

def argsC9 : SynthArgs where
  env := envC9
  valuesPath := "values.yaml"
  keepFullComment := true
  helmDocsCompatibilityMode := false
  dontRemoveHelmDocsPrefix := true
  skipAutoGeneration :=
    { title := true, description := true, required := false, default := true,
      additionalProperties := true }

/-- Key node "k" carrying the annotation `required: true`. -/
def kNodeW : YamlNode :=
  .mk .scalar "!!str" "k" "# @schema\n# required: true\n# @schema" [] none

def vNodeW : YamlNode := .mk .scalar "!!int" "1" "" [] none

/-- The mapping holding only the key "k". -/
def mapNodeW : YamlNode := .mk .mapping "!!map" "" "" [kNodeW, vNodeW] none

/-- The schema decoded from `required: true` with the has-data flag set. -/
def witKeySchema : Schema :=
  .mk { emptySF with hasData := true, required := { strings := none, bool := true } }

/-- The synthesized schema of the single-key mapping. -/
def witMapSchema : Schema :=
  .mk { (NewSchema "object").core with properties := some [("k", witKeySchema)] }

theorem c9Comment : GetSchemaFromComment envC9.decodeAnn kNodeW.headComment =
    .ok (witKeySchema, "") := by
  simp [GetSchemaFromComment, scanComment, scanGo, goScanLines, goStartsWith,
    listIsPre, splitCharList, dropTrailingCR, rawTrim, descTrim, goTrimPre,
    schemaBlockMarker, commentMarker, goJoin, envC9, kNodeW, YamlNode.headComment,
    Schema.Set, emptySF, witKeySchema]

theorem c9Validate : witKeySchema.Validate = .ok () := by
  simp [witKeySchema, Schema.Validate, runChecks, StringOrArrayOfString.Validate,
    isRecognizedTypeName, failIf, bothAndGt, numericKeywordWrongType,
    multipleOfNonPositive, validateItems, StringOrArrayOfString.IsEmpty,
    StringOrArrayOfString.Matches, isSupportedFormat, emptySF, Schema.core]

theorem c9CommentArgs : GetSchemaFromComment argsC9.env.decodeAnn
    (if argsC9.keepFullComment then kNodeW.headComment
      else argsC9.env.trimLeadingParagraphs kNodeW.headComment) =
    .ok (witKeySchema, "") := by
  simp only [show argsC9.keepFullComment = true from rfl, if_true]
  exact c9Comment

theorem c9kPair (req : Option (List String)) :
    processPair argsC9 kNodeW vNodeW req =
      .ok (witKeySchema, tailReq2 argsC9 kNodeW.value witKeySchema req) := by
  have h1 : processPair argsC9 kNodeW vNodeW req =
      processPairResolved argsC9 kNodeW vNodeW req :=
    processPair_notAlias argsC9 kNodeW .scalar "!!int" "1" "" [] none req (by decide)
  rw [h1]
  rw [processPairResolved_stage argsC9 kNodeW vNodeW req witKeySchema witKeySchema ""
    c9CommentArgs rfl rfl
    (resolveRefStep_ref_empty argsC9.env argsC9.valuesPath witKeySchema rfl)
    (validateOrInfer_hasData witKeySchema vNodeW kNodeW.value rfl c9Validate)]
  exact processPairTail_eval argsC9 kNodeW vNodeW "" witKeySchema witKeySchema req rfl
    (processPairSchema_scalar argsC9 kNodeW vNodeW "" witKeySchema rfl rfl rfl rfl rfl)

theorem c9InnerPairs (req : Option (List String)) :
    processPairs argsC9 [kNodeW, vNodeW] none req =
      .ok (some [("k", witKeySchema)], tailReq2 argsC9 kNodeW.value witKeySchema req) := by
  have := processPairs_two argsC9 kNodeW vNodeW none req witKeySchema
    (tailReq2 argsC9 kNodeW.value witKeySchema req) (c9kPair req)
  simpa [assocSetOpt, assocSet, kNodeW, YamlNode.value] using this

theorem c9TailReqEmpty :
    tailReq2 argsC9 kNodeW.value witKeySchema (some []) = some ["k"] := by
  simp [tailReq2, witKeySchema, emptySF, Schema.core, containsOptStr, appendOptStr,
    Contains, Index, kNodeW, YamlNode.value]

theorem c9MapRun : YamlToSchema argsC9 mapNodeW (some []) =
    .ok (witMapSchema, some ["k"]) := by
  have hp : processPairs argsC9 [kNodeW, vNodeW] none (some []) =
      .ok (some [("k", witKeySchema)], some ["k"]) := by
    rw [c9InnerPairs (some []), c9TailReqEmpty]
  exact yamlToSchema_mapping argsC9 "!!map" "" "" [kNodeW, vNodeW] none (some [])
    (some [("k", witKeySchema)]) (some ["k"]) hp

/-- C9 amended witness: the single-key run where "k" carries
`required: true`; the synthesized required list of the mapping contains
"k" exactly once. -/
theorem C9_amended_witness :
    YamlToSchema argsC9 mapNodeW (some []) = .ok (witMapSchema, some ["k"]) ∧
    cntOpt (some ["k"]) "k" = 1 :=
  ⟨c9MapRun,
   C9_amended argsC9 "!!map" "" "" none [] kNodeW vNodeW [] (some [])
     witMapSchema (some ["k"]) witKeySchema "" (by decide) c9MapRun
     c9CommentArgs rfl rfl (by decide)⟩

/-- Key node "K" carrying the literal annotation `required: [k, k]`. -/
def kUpperNode : YamlNode :=
  .mk .scalar "!!str" "K"
    "# @schema\n# required:\n# - k\n# - k\n# @schema" [] none

/-- The value of "K": the mapping holding only the key "k". -/
def kUpperValue : YamlNode := .mk .mapping "!!map" "" "" [kNodeW, vNodeW] none

/-- The outer mapping holding only the key "K". -/
def outerNode9 : YamlNode := .mk .mapping "!!map" "" "" [kUpperNode, kUpperValue] none

/-- The schema decoded from `required: [k, k]` with the has-data flag set. -/
def annKSchema : Schema :=
  .mk { emptySF with
    hasData := true
    required := { strings := some ["k", "k"], bool := false } }

/-- The synthesized schema of "K": the literal duplicate required list is
kept, "k" is not appended again. -/
def kUpperFinal : Schema :=
  .mk { annKSchema.core with
    properties := some [("k", witKeySchema)]
    required := { annKSchema.core.required with strings := some ["k", "k"] } }

/-- The synthesized outer schema. -/
def outerSchema9 : Schema :=
  .mk { (NewSchema "object").core with properties := some [("K", kUpperFinal)] }

theorem c9UpperComment : GetSchemaFromComment argsC9.env.decodeAnn
    (if argsC9.keepFullComment then kUpperNode.headComment
      else argsC9.env.trimLeadingParagraphs kUpperNode.headComment) =
    .ok (annKSchema, "") := by
  simp only [show argsC9.keepFullComment = true from rfl, if_true]
  simp [GetSchemaFromComment, scanComment, scanGo, goScanLines, goStartsWith,
    listIsPre, splitCharList, dropTrailingCR, rawTrim, descTrim, goTrimPre,
    schemaBlockMarker, commentMarker, goJoin, envC9, kUpperNode,
    YamlNode.headComment, Schema.Set, emptySF, annKSchema, argsC9]

theorem c9UpperValidate : annKSchema.Validate = .ok () := by
  simp [annKSchema, Schema.Validate, runChecks, StringOrArrayOfString.Validate,
    isRecognizedTypeName, failIf, bothAndGt, numericKeywordWrongType,
    multipleOfNonPositive, validateItems, StringOrArrayOfString.IsEmpty,
    StringOrArrayOfString.Matches, isSupportedFormat, emptySF, Schema.core]

theorem c9TailReqDup :
    tailReq2 argsC9 kNodeW.value witKeySchema (some ["k", "k"]) = some ["k", "k"] := by
  simp [tailReq2, witKeySchema, emptySF, Schema.core, containsOptStr, appendOptStr,
    Contains, Index, kNodeW, YamlNode.value]

theorem c9InnerRun : YamlToSchema argsC9 kUpperValue annKSchema.core.required.strings =
    .ok (witMapSchema, some ["k", "k"]) := by
  show YamlToSchema argsC9 kUpperValue (some ["k", "k"]) = _
  have hp : processPairs argsC9 [kNodeW, vNodeW] none (some ["k", "k"]) =
      .ok (some [("k", witKeySchema)], some ["k", "k"]) := by
    rw [c9InnerPairs (some ["k", "k"]), c9TailReqDup]
  exact yamlToSchema_mapping argsC9 "!!map" "" "" [kNodeW, vNodeW] none
    (some ["k", "k"]) (some [("k", witKeySchema)]) (some ["k", "k"]) hp

theorem c9UpperPair : processPair argsC9 kUpperNode kUpperValue (some []) =
    .ok (kUpperFinal, some []) := by
  have h1 : processPair argsC9 kUpperNode kUpperValue (some []) =
      processPairResolved argsC9 kUpperNode kUpperValue (some []) :=
    processPair_notAlias argsC9 kUpperNode .mapping "!!map" "" "" [kNodeW, vNodeW]
      none (some []) (by decide)
  rw [h1]
  rw [processPairResolved_stage argsC9 kUpperNode kUpperValue (some []) annKSchema
    annKSchema "" c9UpperComment rfl rfl
    (resolveRefStep_ref_empty argsC9.env argsC9.valuesPath annKSchema rfl)
    (validateOrInfer_hasData annKSchema kUpperValue kUpperNode.value rfl
      c9UpperValidate)]
  have hschema : processPairSchema argsC9 kUpperNode kUpperValue "" annKSchema =
      .ok kUpperFinal := by
    have := processPairSchema_mapping argsC9 kUpperNode kUpperValue "" annKSchema
      witMapSchema (some ["k", "k"]) rfl rfl rfl rfl rfl rfl c9InnerRun
    simpa [kUpperFinal, witMapSchema, NewSchema, emptySF, Schema.core,
      NewBoolOrArrayOfString, witKeySchema, annKSchema] using this
  have := processPairTail_eval argsC9 kUpperNode kUpperValue "" annKSchema
    kUpperFinal (some []) rfl hschema
  rw [this]
  have hreq : tailReq2 argsC9 kUpperNode.value annKSchema (some []) = some [] := by
    simp [tailReq2, annKSchema, emptySF, Schema.core, kUpperNode, YamlNode.value]
  rw [hreq]

/-- C9 counterexample: the mapping under "K" is synthesized with the
annotation `required: [k, k]` on "K" and `required: true` (no reference)
on its key "k"; the synthesized required list of that mapping is
["k", "k"], so it contains "k" twice, not exactly once — the guard only
prevents appending a name that is already present; it does not deduplicate
a literal list. -/
theorem C9_counterexample :
    YamlToSchema argsC9 outerNode9 (some []) = .ok (outerSchema9, some []) ∧
    kUpperFinal.core.required.strings = some ["k", "k"] ∧
    cntOpt (some ["k", "k"]) "k" = 2 ∧
    witKeySchema.core.required.bool = true ∧
    witKeySchema.core.ref = "" := by
  refine ⟨?_, rfl, by decide, rfl, rfl⟩
  have hp : processPairs argsC9 [kUpperNode, kUpperValue] none (some []) =
      .ok (some [("K", kUpperFinal)], some []) := by
    have := processPairs_two argsC9 kUpperNode kUpperValue none (some [])
      kUpperFinal (some []) c9UpperPair
    simpa [assocSetOpt, assocSet, kUpperNode, YamlNode.value] using this
  exact yamlToSchema_mapping argsC9 "!!map" "" "" [kUpperNode, kUpperValue] none
    (some []) (some [("K", kUpperFinal)]) (some []) hp

/-! ## Concrete synthesis runs for the unresolved-reference claim -/

/-- External behavior for the reference scenarios: the annotation decoder
knows the two annotation bodies used below, no helm-docs data is present,
and no referenced file exists on the filesystem. -/
def envC3 : SynthEnv where
  decodeAnn := fun t =>
    if t = "$ref: other.json#/definitions/foo" then
      .ok (.mk { emptySF with ref := "other.json#/definitions/foo" })
    else if t = "$ref: missing.json#/a\npattern: x\ntype: integer" then
      .ok (.mk { emptySF with
        ref := "missing.json#/a"
        pattern := "x"
        type := ["integer"] })
    else .error "unexpected annotation text"
  trimLeadingParagraphs := fun s => s
  parseHelmDocsComment := fun _ => { default := "", description := "", valueType := "" }
  stripHelmDocsArtifacts := fun s => s
  resolveRelFile := fun _ _ => none

def argsC3 : SynthArgs where
  env := envC3
  valuesPath := "values.yaml"
  keepFullComment := true
  helmDocsCompatibilityMode := false
  dontRemoveHelmDocsPrefix := true
  skipAutoGeneration :=
    { title := true, description := true, required := false, default := true,
      additionalProperties := true }

/-- Key node carrying a reference to a file that does not exist. -/
def refKeyNode : YamlNode :=
  .mk .scalar "!!str" "withRef"
    "# @schema\n# $ref: other.json#/definitions/foo\n# @schema" [] none

/-- A plain integer scalar serving as the value of the keys below. -/
def refValNode : YamlNode := .mk .scalar "!!int" "1" "" [] none

/-- The value node of the bad key, the same integer scalar. -/
def badValNode : YamlNode := .mk .scalar "!!int" "1" "" [] none

/-- The annotation schema of `refKeyNode` after the comment stage. -/
def annC3 : Schema :=
  .mk { emptySF with
    hasData := true
    ref := "other.json#/definitions/foo" }

/-- Key node whose annotation has a missing reference and, in addition, a
pattern together with a non-string type. -/
def badKeyNode : YamlNode :=
  .mk .scalar "!!str" "bad"
    "# @schema\n# $ref: missing.json#/a\n# pattern: x\n# type: integer\n# @schema"
    [] none

/-- The annotation schema of `badKeyNode` after the comment stage. -/
def annC3bad : Schema :=
  .mk { emptySF with
    hasData := true
    ref := "missing.json#/a"
    pattern := "x"
    type := ["integer"] }

theorem c3Comment : GetSchemaFromComment argsC3.env.decodeAnn
    (if argsC3.keepFullComment then refKeyNode.headComment
      else argsC3.env.trimLeadingParagraphs refKeyNode.headComment) =
    .ok (annC3, "") := by
  simp only [show argsC3.keepFullComment = true from rfl, if_true]
  simp [GetSchemaFromComment, scanComment, scanGo, goScanLines, goStartsWith,
    listIsPre, splitCharList, dropTrailingCR, rawTrim, descTrim, goTrimPre,
    schemaBlockMarker, commentMarker, goJoin, envC3, refKeyNode,
    YamlNode.headComment, Schema.Set, emptySF, annC3, argsC3]

theorem c3Validate : annC3.Validate = .ok () := by
  simp [annC3, Schema.Validate, runChecks, StringOrArrayOfString.Validate,
    isRecognizedTypeName, failIf, bothAndGt, numericKeywordWrongType,
    multipleOfNonPositive, validateItems, StringOrArrayOfString.IsEmpty,
    StringOrArrayOfString.Matches, isSupportedFormat, emptySF, Schema.core]

theorem c3BadComment : GetSchemaFromComment argsC3.env.decodeAnn
    (if argsC3.keepFullComment then badKeyNode.headComment
      else argsC3.env.trimLeadingParagraphs badKeyNode.headComment) =
    .ok (annC3bad, "") := by
  simp only [show argsC3.keepFullComment = true from rfl, if_true]
  simp [GetSchemaFromComment, scanComment, scanGo, goScanLines, goStartsWith,
    listIsPre, splitCharList, dropTrailingCR, rawTrim, descTrim, goTrimPre,
    schemaBlockMarker, commentMarker, goJoin, envC3, badKeyNode,
    YamlNode.headComment, Schema.Set, emptySF, annC3bad, argsC3]

theorem c3BadValidate : annC3bad.Validate = .error .patternWrongType := by
  simp [annC3bad, Schema.Validate, runChecks, StringOrArrayOfString.Validate,
    isRecognizedTypeName, failIf, StringOrArrayOfString.IsEmpty,
    StringOrArrayOfString.Matches, emptySF, Schema.core]

/-- C3 (amended): for a key whose annotation carries a reference to a file
that the resolver cannot find (the path part of the reference does not
exist relative to the values file), PROVIDED the annotation data validates
against the meta checks of `Schema.Validate`, synthesis of the enclosing
mapping completes without aborting and the schema recorded for the key is
the annotation schema itself, with its reference value kept unresolved.
The original claim omits the validation proviso: validation runs after the
failed resolution, and a validation failure is fatal for the whole tree
(see the counterexample). -/
theorem C3_amended (a : SynthArgs) (kN : YamlNode) (kind : YKind)
    (tag value hc : String) (content : List YamlNode) (aliasT : Option YamlNode)
    (mtag mvalue mhc : String) (maliasT : Option YamlNode)
    (parentReq : Option (List String)) (ann : Schema) (desc : String)
    (hk : ¬kind = .aliasNode)
    (hg : GetSchemaFromComment a.env.decodeAnn
      (if a.keepFullComment then kN.headComment
        else a.env.trimLeadingParagraphs kN.headComment) = .ok (ann, desc))
    (hmode : a.helmDocsCompatibilityMode = false)
    (hdesc : a.dontRemoveHelmDocsPrefix = true)
    (href : ¬ann.core.ref = "")
    (hhash : goStartsWith ann.core.ref "#" = false)
    (hmiss : a.env.resolveRelFile a.valuesPath
      ((goSplit ann.core.ref '#').headD "") = none)
    (hhas : ann.core.hasData = true)
    (hval : ann.Validate = .ok ()) :
    YamlToSchema a (.mk .mapping mtag mvalue mhc
        [kN, .mk kind tag value hc content aliasT] maliasT) parentReq =
      .ok (.mk { (NewSchema "object").core with
        properties := some [(kN.value, ann)] }, parentReq) := by
  have h1 := processPair_notAlias a kN kind tag value hc content aliasT parentReq hk
  have hres := resolveRefStep_missing a.env a.valuesPath ann href hhash hmiss
  have hvi := validateOrInfer_hasData ann (.mk kind tag value hc content aliasT)
    kN.value hhas hval
  have h2 := processPairResolved_stage a kN (.mk kind tag value hc content aliasT)
    parentReq ann ann desc hg hmode hdesc hres hvi
  have h3 := processPairTail_ref_nonempty a kN (.mk kind tag value hc content aliasT)
    desc ann parentReq href
  have hp : processPair a kN (.mk kind tag value hc content aliasT) parentReq =
      .ok (ann, parentReq) := by rw [h1, h2, h3]
  have hps := processPairs_two a kN (.mk kind tag value hc content aliasT)
    none parentReq ann parentReq hp
  have := yamlToSchema_mapping a mtag mvalue mhc
    [kN, .mk kind tag value hc content aliasT] maliasT parentReq
    (assocSetOpt none kN.value ann) parentReq hps
  simpa [assocSetOpt, assocSet] using this

theorem C3_amended_witness :
    YamlToSchema argsC3 (.mk .mapping "!!map" "" "" [refKeyNode, refValNode] none)
      (some []) =
      .ok (.mk { (NewSchema "object").core with
        properties := some [("withRef", annC3)] }, some []) ∧
    annC3.core.ref = "other.json#/definitions/foo" ∧
    argsC3.env.resolveRelFile argsC3.valuesPath
      ((goSplit annC3.core.ref '#').headD "") = none := by
  refine ⟨?_, rfl, rfl⟩
  have := C3_amended argsC3 refKeyNode .scalar "!!int" "1" "" [] none
    "!!map" "" "" none (some []) annC3 "" (by decide) c3Comment rfl rfl
    (by decide) (by decide) rfl rfl c3Validate
  simpa [refKeyNode, refValNode, YamlNode.value] using this

/-- C3 counterexample: the key "bad" carries a reference to the missing
file missing.json, together with a pattern and the type integer.  The
resolver misses the file and keeps the reference, exactly as the claim
says — but the subsequent validation of the annotation fails (pattern with
a non-string type) and is fatal: synthesis of the enclosing tree aborts
with an error instead of completing, refuting the unconditional
"completes without aborting". -/
theorem C3_counterexample :
    YamlToSchema argsC3 (.mk .mapping "!!map" "" "" [badKeyNode, badValNode] none)
      (some []) = .error "Error while validating jsonschema of key bad" ∧
    annC3bad.core.ref = "missing.json#/a" ∧
    argsC3.env.resolveRelFile argsC3.valuesPath
      ((goSplit annC3bad.core.ref '#').headD "") = none := by
  refine ⟨?_, rfl, rfl⟩
  have hres := resolveRefStep_missing argsC3.env argsC3.valuesPath annC3bad
    (by decide) (by decide) rfl
  have hvi := validateOrInfer_invalid annC3bad badValNode "bad" .patternWrongType
    rfl c3BadValidate
  have hpr := processPairResolved_fatal argsC3 badKeyNode badValNode (some [])
    annC3bad "" "Error while validating jsonschema of key bad" c3BadComment rfl
    hres (by simpa [badKeyNode, YamlNode.value] using hvi)
  have hp : processPair argsC3 badKeyNode badValNode (some []) =
      .error "Error while validating jsonschema of key bad" := by
    have hb : badValNode = YamlNode.mk .scalar "!!int" "1" "" [] none := rfl
    rw [hb, processPair_notAlias argsC3 badKeyNode .scalar "!!int" "1" "" [] none
      (some []) (by decide), ← hb]
    exact hpr
  exact yamlToSchema_mapping_err argsC3 "!!map" "" "" [badKeyNode, badValNode]
    none (some []) "Error while validating jsonschema of key bad"
    (processPairs_two_err argsC3 badKeyNode badValNode none (some [])
      "Error while validating jsonschema of key bad" hp)

end HelmSchema
